import Mathlib

/-!
# Verification of the product-import pipeline

A shallow embedding of the catalog-import service (`ProductImportService`):
streaming driver, per-chunk grouping by `ProductID`, vendor/manufacturer
get-or-create, variant construction and sku-keyed merge, and the batched
upsert writer.  Random `nanoid()` identifiers are modelled by a natural-number
counter threaded through the computation; the persistent store is modelled by
lists of documents in insertion order (lookups return the first match, as
`findOne` / `updateOne` do).  JavaScript `Map` objects are modelled by
association lists whose `set` updates an existing key in place and appends a
fresh key, matching `Map` insertion-order semantics.
-/

namespace MedImport

/-! ## Rows

One parsed line of the tab-separated input.  Fields the service never reads
are omitted; a missing or empty field is the empty string (both are falsy in
the source's `!x` / `x || y` tests, which `jsOr` mirrors). -/

structure Row where
  siteSource : String
  itemID : String
  manufacturerID : String
  manufacturerName : String
  productID : String
  productName : String
  productDescription : String
  manufacturerItemCode : String
  itemDescription : String
  imageFileName : String
  itemImageURL : String
  ndcItemCode : String
  pkg : String
  unitPrice : String
  quantityOnHand : String
  availabilityText : String
  deriving DecidableEq, Repr

/-- JavaScript `a || b` on strings (empty string is falsy). -/
def jsOr (a b : String) : String := if a = "" then b else a

/-! ## Numeric parsing (`parseNumber` / `parseBoolean`) -/

def isWS (c : Char) : Bool := c = ' ' || c = '\t' || c = '\n' || c = '\r'

/-- JavaScript `String.prototype.trim()`: strip whitespace on both ends. -/
def jsTrim (s : String) : String :=
  String.mk (((s.data.dropWhile isWS).reverse.dropWhile isWS).reverse)

def isDigitCh (c : Char) : Bool := '0' ≤ c && c ≤ '9'

def natOfDigits (ds : List Char) : Nat :=
  ds.foldl (fun n c => 10 * n + (c.toNat - '0'.toNat)) 0

/-- JavaScript `parseInt(value, 10)`: skip leading whitespace, an optional
sign, then the longest run of decimal digits; `NaN` (here `none`) when that
run is empty. -/
def jsParseInt (s : String) : Option Int :=
  let cs := s.data.dropWhile isWS
  let signed : Int × List Char :=
    match cs with
    | '-' :: rest => (-1, rest)
    | '+' :: rest => (1, rest)
    | _ => (1, cs)
  let ds := signed.2.takeWhile isDigitCh
  if ds.isEmpty then none else some (signed.1 * (natOfDigits ds : Int))

/-- The numeric value of a JavaScript number as `parseFloat` produces it,
modelled exactly as a decimal `mant * 10 ^ exp`.  The representation is kept
canonical (trailing zeros stripped from the mantissa, zero as `0 * 10 ^ 0`),
so that structural equality coincides with the value equality that the
JavaScript `!==` comparisons of the source perform. -/
structure JNum where
  mant : Int
  exp : Int
  deriving DecidableEq, Repr

/-- Strip factors of ten from the mantissa into the exponent; the fuel bounds
the number of steps. -/
def normTen : Nat → Int → Int → JNum
  | 0, m, e => ⟨m, e⟩
  | fuel + 1, m, e =>
    if m ≠ 0 ∧ m % 10 = 0 then normTen fuel (m / 10) (e + 1) else ⟨m, e⟩

/-- The canonical decimal with value `m * 10 ^ e`. -/
def mkJNum (digits : Nat) (m : Int) (e : Int) : JNum :=
  if m = 0 then ⟨0, 0⟩ else normTen digits m e

/-- JavaScript `parseFloat(value)` on decimal literals: skip whitespace,
optional sign, integer digits, optional fraction, optional exponent; `NaN`
(here `none`) when no digit is found. -/
def jsParseFloat (s : String) : Option JNum :=
  let cs := s.data.dropWhile isWS
  let signed : Bool × List Char :=
    match cs with
    | '-' :: rest => (true, rest)
    | '+' :: rest => (false, rest)
    | _ => (false, cs)
  let intDs := signed.2.takeWhile isDigitCh
  let cs1 := signed.2.dropWhile isDigitCh
  let fracPart : List Char × List Char :=
    match cs1 with
    | '.' :: rest => (rest.takeWhile isDigitCh, rest.dropWhile isDigitCh)
    | _ => ([], cs1)
  if intDs.isEmpty && fracPart.1.isEmpty then none
  else
    let mag : Nat := natOfDigits (intDs ++ fracPart.1)
    let m : Int := if signed.1 then -(mag : Int) else (mag : Int)
    let expo : Int :=
      match fracPart.2 with
      | e :: rest =>
        if e = 'e' || e = 'E' then
          match rest with
          | '-' :: ds => if (ds.takeWhile isDigitCh).isEmpty then 0
                         else -(natOfDigits (ds.takeWhile isDigitCh) : Int)
          | '+' :: ds => (natOfDigits (ds.takeWhile isDigitCh) : Int)
          | ds => (natOfDigits (ds.takeWhile isDigitCh) : Int)
        else 0
      | [] => 0
    some (mkJNum (intDs ++ fracPart.1).length m (expo - fracPart.1.length))

/-- `parseNumber`: `parseFloat` with `NaN` collapsed to `0`. -/
def parseNumber (value : String) : JNum := (jsParseFloat value).getD ⟨0, 0⟩

/-- `parseBoolean`: `!isNaN(parseInt(value, 10)) && parseInt(value, 10) > 0`. -/
def parseBoolean (value : String) : Bool :=
  match jsParseInt value with
  | some n => decide (0 < n)
  | none => false

/-! ## Documents -/

/-- One entry of `parseImages`' single-element image array. -/
structure Image where
  fileName : String
  cdnLink : Option String
  i : Nat
  alt : Option String
  deriving DecidableEq, Repr

/-- `parseImages(row)`. -/
def parseImages (r : Row) : List Image :=
  [{ fileName := r.imageFileName,
     cdnLink := if r.itemImageURL = "" then none else some r.itemImageURL,
     i := 0,
     alt := if r.itemDescription = "" then none else some r.itemDescription }]

structure VariantAttributes where
  packaging : String
  description : String
  deriving DecidableEq, Repr

/-- A product variant as built by `constructVariant`.  Generated `nanoid`
identifiers are naturals drawn from the counter. -/
structure Variant where
  id : Nat
  available : Bool
  attributes : VariantAttributes
  cost : JNum
  currency : String
  description : String
  manufacturerItemCode : String
  manufacturerItemId : String
  packaging : String
  price : JNum
  optionName : String
  optionsPath : Nat
  optionItemsPath : Nat
  sku : String
  active : Bool
  images : List Image
  itemCode : String
  deriving DecidableEq, Repr

/-- The sku is the delimiter-free concatenation
`manufacturerItemId + manufacturerItemCode + packaging` (ItemID is the
manufacturer item id). -/
def skuOfRow (r : Row) : String := r.itemID ++ r.manufacturerItemCode ++ r.pkg

/-- `constructVariant(row)`.  Consumes three generated ids, in source order:
the variant id, `optionsPath`, `optionItemsPath`.  Returns the variant and
the advanced id counter. -/
def constructVariant (ctr : Nat) (r : Row) : Variant × Nat :=
  ({ id := ctr,
     available := parseBoolean r.quantityOnHand,
     attributes := { packaging := r.pkg, description := r.itemDescription },
     cost := parseNumber r.unitPrice,
     currency := "EUR",
     description := r.itemDescription,
     manufacturerItemCode := r.manufacturerItemCode,
     manufacturerItemId := r.itemID,
     packaging := r.pkg,
     price := parseNumber r.unitPrice,
     optionName := r.pkg ++ ", " ++ r.itemDescription,
     optionsPath := ctr + 1,
     optionItemsPath := ctr + 2,
     sku := skuOfRow r,
     active := true,
     images := parseImages r,
     itemCode := r.ndcItemCode }, ctr + 3)

/-- `isVariantUpdated(existingVariant, updatedVariant)`: true when price,
availability, or description differ. -/
def isVariantUpdated (e u : Variant) : Bool :=
  e.price ≠ u.price || e.available ≠ u.available || e.description ≠ u.description

/-! ## The sku-keyed variant map (a JavaScript `Map`) -/

abbrev VMap := List (String × Variant)

/-- `map.has(k)`. -/
def vmHas (m : VMap) (k : String) : Bool := m.any (fun p => p.1 = k)

/-- `map.get(k)`. -/
def vmGet (m : VMap) (k : String) : Option Variant :=
  (m.find? (fun p => p.1 = k)).map (fun p => p.2)

/-- `map.set(k, v)`: replace in place when the key exists, append otherwise
(JavaScript `Map` insertion-order semantics). -/
def vmSet (m : VMap) (k : String) (v : Variant) : VMap :=
  if vmHas m k then m.map (fun p => if p.1 = k then (k, v) else p)
  else m ++ [(k, v)]

/-- `Array.from(map.values())`. -/
def vmValues (m : VMap) : List Variant := m.map (fun p => p.2)

/-- The map seeded from the existing variants:
`existingVariants.forEach(v => variantMap.set(v.sku, v))`. -/
def buildVariantMap (es : List Variant) : VMap :=
  es.foldl (fun m e => vmSet m e.sku e) []

/-- One step of the incoming-variant loop: replace a same-sku entry only when
`isVariantUpdated`, insert a fresh sku unconditionally. -/
def mergeStep (m : VMap) (v : Variant) : VMap :=
  match vmGet m v.sku with
  | some e => if isVariantUpdated e v then vmSet m v.sku v else m
  | none => vmSet m v.sku v

/-- The variant merge of `processChunk` for an existing product. -/
def mergeVariants (es vs : List Variant) : List Variant :=
  vmValues (vs.foldl mergeStep (buildVariantMap es))

/-! ## Products and reference entities -/

structure OptionValue where
  id : Nat
  name : String
  value : String
  deriving DecidableEq, Repr

structure ProductOption where
  id : Nat
  name : String
  dataField : Option String
  values : List OptionValue
  deriving DecidableEq, Repr

/-- `generateOptions(row)`: a packaging option and a description option, each
with one value; consumes four generated ids in literal order. -/
def generateOptions (ctr : Nat) (r : Row) : List ProductOption × Nat :=
  ([{ id := ctr, name := "packaging", dataField := none,
      values := [{ id := ctr + 1, name := r.pkg, value := r.pkg }] },
    { id := ctr + 2, name := "description", dataField := none,
      values := [{ id := ctr + 3, name := r.itemDescription,
                   value := r.itemDescription }] }], ctr + 4)

structure ProductInfo where
  transactionId : Nat
  skipEvent : Bool
  userRequestId : Nat
  deriving DecidableEq, Repr

/-- A stored product document.  `docId` is optional so that the source's
defensive branch for an existing record missing its document id is
expressible. -/
structure Product where
  docId : Option Nat
  productID : String
  name : String
  description : String
  vendorId : Nat
  manufacturerId : String
  storefrontPriceVisibility : String
  variants : List Variant
  options : List ProductOption
  availabilityText : String
  isFragile : Bool
  published : String
  isTaxable : Bool
  images : List Image
  categoryId : String
  dataPublic : Unit
  immutable : Bool
  deploymentId : String
  docType : String
  nameSpace : String
  companyId : String
  status : String
  info : ProductInfo
  deriving DecidableEq, Repr

structure Vendor where
  vendorId : Nat
  siteSource : String
  name : String
  deriving DecidableEq, Repr

structure Manufacturer where
  manufacturerId : String
  name : String
  deriving DecidableEq, Repr

structure Store where
  vendors : List Vendor
  manufacturers : List Manufacturer
  products : List Product
  deriving DecidableEq, Repr

/-- The run-scoped service state: persistent store, generated-id counter, the
two in-memory caches declared on the service (fields that the source declares
but never reads or writes), and a count of persistent `findOne` round-trips,
recorded purely as an observation. -/
structure PipeState where
  store : Store
  ctr : Nat
  vendorCache : List (String × Nat)
  manufacturerCache : List (String × String)
  lookups : Nat
  deriving DecidableEq, Repr

/-- `checkVendor(siteSource)`: `findOne({name: siteSource})`, creating and
saving a vendor with a fresh `vendorId` when absent.  The in-memory
`vendorCache` is left untouched, as in the source. -/
def checkVendor (st : PipeState) (siteSource : String) : Nat × PipeState :=
  let st1 := { st with lookups := st.lookups + 1 }
  match st1.store.vendors.find? (fun v => v.name = siteSource) with
  | some v => (v.vendorId, st1)
  | none =>
    let v : Vendor := { vendorId := st1.ctr, siteSource := siteSource, name := siteSource }
    (st1.ctr,
      { st1 with
          store := { st1.store with vendors := st1.store.vendors ++ [v] },
          ctr := st1.ctr + 1 })

/-- `ensureManufacturer(manufacturerId, manufacturerName)`:
`findOne({manufacturerId})`, creating with the given name when absent; the
returned id is the found document's `manufacturerId` (resp. the argument).
The in-memory `manufacturerCache` is left untouched, as in the source. -/
def ensureManufacturer (st : PipeState) (mid mname : String) : String × PipeState :=
  let st1 := { st with lookups := st.lookups + 1 }
  match st1.store.manufacturers.find? (fun m => m.manufacturerId = mid) with
  | some m => (m.manufacturerId, st1)
  | none =>
    let m : Manufacturer := { manufacturerId := mid, name := mname }
    (mid,
      { st1 with
          store := { st1.store with manufacturers := st1.store.manufacturers ++ [m] } })

/-! ## Grouping a chunk by ProductID -/

/-- One entry of `groupedData`: the representative (first) row and the
variants of every row of this product, in row order. -/
structure Group where
  key : String
  row : Row
  variants : List Variant
  deriving DecidableEq, Repr

/-- One step of the grouping `reduce`: drop rows with a missing `ProductID`
or `ItemID`, otherwise create the group on first sight and push the row's
variant. -/
def groupStep (acc : List Group) (ctr : Nat) (r : Row) : List Group × Nat :=
  if r.productID = "" || r.itemID = "" then (acc, ctr)
  else
    let acc1 :=
      if acc.any (fun g => g.key = r.productID) then acc
      else acc ++ [{ key := r.productID, row := r, variants := [] }]
    let built := constructVariant ctr r
    (acc1.map (fun g =>
        if g.key = r.productID then { g with variants := g.variants ++ [built.1] } else g),
      built.2)

/-- `chunk.reduce(...)`: groups in first-appearance order. -/
def groupChunk (chunk : List Row) (ctr : Nat) : List Group × Nat :=
  chunk.foldl (fun p r => groupStep p.1 p.2 r) ([], ctr)

/-! ## Upsert instructions and the batch writer -/

/-- The `$set` payload: every field the pipeline owns — and not the document
id, which the source never lists in `$set`. -/
structure UpdateSet where
  productID : String
  name : String
  description : String
  vendorId : Nat
  manufacturerId : String
  storefrontPriceVisibility : String
  variants : List Variant
  options : List ProductOption
  availabilityText : String
  isFragile : Bool
  published : String
  isTaxable : Bool
  images : List Image
  categoryId : String
  dataPublic : Unit
  immutable : Bool
  deploymentId : String
  docType : String
  nameSpace : String
  companyId : String
  status : String
  info : ProductInfo
  deriving DecidableEq, Repr

/-- One `updateOne` instruction of the bulk write: filter on `productID`,
`$set`, optional `$setOnInsert: {docId}`, `upsert: true`. -/
structure UpdateOp where
  filterProductID : String
  set : UpdateSet
  setOnInsertDocId : Option Nat
  deriving DecidableEq, Repr

/-- Project a product document onto its `$set` payload. -/
def toUpdateSet (p : Product) : UpdateSet :=
  { productID := p.productID,
    name := p.name,
    description := p.description,
    vendorId := p.vendorId,
    manufacturerId := p.manufacturerId,
    storefrontPriceVisibility := p.storefrontPriceVisibility,
    variants := p.variants,
    options := p.options,
    availabilityText := p.availabilityText,
    isFragile := p.isFragile,
    published := p.published,
    isTaxable := p.isTaxable,
    images := p.images,
    categoryId := p.categoryId,
    dataPublic := p.dataPublic,
    immutable := p.immutable,
    deploymentId := p.deploymentId,
    docType := p.docType,
    nameSpace := p.nameSpace,
    companyId := p.companyId,
    status := p.status,
    info := p.info }

/-- Apply a `$set` payload to a stored document: every owned field is
overwritten, the document id is untouched. -/
def applySet (p : Product) (u : UpdateSet) : Product :=
  { docId := p.docId,
    productID := u.productID,
    name := u.name,
    description := u.description,
    vendorId := u.vendorId,
    manufacturerId := u.manufacturerId,
    storefrontPriceVisibility := u.storefrontPriceVisibility,
    variants := u.variants,
    options := u.options,
    availabilityText := u.availabilityText,
    isFragile := u.isFragile,
    published := u.published,
    isTaxable := u.isTaxable,
    images := u.images,
    categoryId := u.categoryId,
    dataPublic := u.dataPublic,
    immutable := u.immutable,
    deploymentId := u.deploymentId,
    docType := u.docType,
    nameSpace := u.nameSpace,
    companyId := u.companyId,
    status := u.status,
    info := u.info }

/-- The document a matching upsert inserts: the `$set` payload plus the
`$setOnInsert` document id (absent when no `$setOnInsert` was emitted). -/
def insertOfOp (op : UpdateOp) : Product :=
  { applySet
      { docId := op.setOnInsertDocId,
        productID := op.set.productID, name := op.set.name,
        description := op.set.description, vendorId := op.set.vendorId,
        manufacturerId := op.set.manufacturerId,
        storefrontPriceVisibility := op.set.storefrontPriceVisibility,
        variants := op.set.variants, options := op.set.options,
        availabilityText := op.set.availabilityText,
        isFragile := op.set.isFragile, published := op.set.published,
        isTaxable := op.set.isTaxable, images := op.set.images,
        categoryId := op.set.categoryId, dataPublic := op.set.dataPublic,
        immutable := op.set.immutable, deploymentId := op.set.deploymentId,
        docType := op.set.docType, nameSpace := op.set.nameSpace,
        companyId := op.set.companyId, status := op.set.status,
        info := op.set.info }
      op.set with
    docId := op.setOnInsertDocId }

/-- `updateOne` on a match: update the first document matching the filter. -/
def updateFirst (ps : List Product) (key : String) (u : UpdateSet) : List Product :=
  match ps with
  | [] => []
  | p :: rest =>
    if p.productID = key then applySet p u :: rest
    else p :: updateFirst rest key u

/-- One `updateOne ... upsert: true`: update the first match, or insert. -/
def applyOp (ps : List Product) (op : UpdateOp) : List Product :=
  if ps.any (fun p => p.productID = op.filterProductID) then
    updateFirst ps op.filterProductID op.set
  else ps ++ [insertOfOp op]

/-- `bulkWrite(bulkOps)`. -/
def applyOps (ps : List Product) (ops : List UpdateOp) : List Product :=
  ops.foldl applyOp ps

/-! ## Building one product's upsert instruction -/

/-- `enhanceDescription(name, description)`: the `try` body is the current
pass-through, the `catch` arm falls back to the original description. -/
def enhanceDescription (name description : String) : String :=
  match (Except.ok description : Except String String) with
  | Except.ok r => r
  | Except.error _ => description

/-- Overwrite the fields the merge path assigns on an existing document:
name, description, vendor, manufacturer, availability, images, and the merged
variants. -/
def ownedUpdate (p : Product) (r : Row) (vid : Nat) (mid : String)
    (mv : List Variant) : Product :=
  { p with
      name := r.productName,
      description := jsOr r.productDescription "",
      vendorId := vid,
      manufacturerId := mid,
      availabilityText := jsOr r.availabilityText "available",
      images := parseImages r,
      variants := mv }

/-- The fresh product document of the creation path, consuming seven
generated ids in literal order (docId, four option ids, transaction id, user
request id), including the description-enhancement fallback for an empty
description. -/
def newProductDoc (g : Group) (vid : Nat) (mid : String) (ctr : Nat) :
    Product × Nat :=
  let opts := generateOptions (ctr + 1) g.row
  let desc0 := jsOr g.row.productDescription ""
  let desc :=
    if desc0 = "" || jsTrim desc0 = "" then
      enhanceDescription g.row.productName desc0
    else desc0
  ({ docId := some ctr,
     productID := g.key,
     name := g.row.productName,
     description := desc,
     vendorId := vid,
     manufacturerId := mid,
     storefrontPriceVisibility := "members-only",
     variants := g.variants,
     options := opts.1,
     availabilityText := jsOr g.row.availabilityText "available",
     isFragile := false,
     published := "published",
     isTaxable := true,
     images := parseImages g.row,
     categoryId := "U8YOybu1vbgQdbhSkrpmAYIV",
     dataPublic := (),
     immutable := false,
     deploymentId := "d8039",
     docType := "item",
     nameSpace := "items",
     companyId := "2yTnVUyG6H9yRX3K1qIFIiRz",
     status := "active",
     info := { transactionId := opts.2, skipEvent := false,
               userRequestId := opts.2 + 1 } }, opts.2 + 2)

/-- The body of the per-product loop of `processChunk`: resolve vendor and
manufacturer, build the product document against the chunk's pre-write
snapshot, regenerate a missing document id defensively, and emit the upsert
instruction (`$setOnInsert: {docId}` only when the snapshot had no such
product). -/
def buildOp (st : PipeState) (snapshot : List Product) (g : Group) :
    UpdateOp × PipeState :=
  let rv := checkVendor st g.row.siteSource
  let rm := ensureManufacturer rv.2 g.row.manufacturerID g.row.manufacturerName
  match snapshot.find? (fun p => p.productID = g.key) with
  | some p =>
    let productDoc :=
      ownedUpdate p g.row rv.1 rm.1 (mergeVariants p.variants g.variants)
    let fixed : Product × PipeState :=
      match productDoc.docId with
      | some _ => (productDoc, rm.2)
      | none => ({ productDoc with docId := some rm.2.ctr },
                 { rm.2 with ctr := rm.2.ctr + 1 })
    ({ filterProductID := g.key,
       set := toUpdateSet fixed.1,
       setOnInsertDocId := none }, fixed.2)
  | none =>
    let made := newProductDoc g rv.1 rm.1 rm.2.ctr
    let st2 := { rm.2 with ctr := made.2 }
    let fixed : Product × PipeState :=
      match made.1.docId with
      | some _ => (made.1, st2)
      | none => ({ made.1 with docId := some st2.ctr },
                 { st2 with ctr := st2.ctr + 1 })
    let onInsert : Nat × PipeState :=
      match fixed.1.docId with
      | some d => (d, fixed.2)
      | none => (fixed.2.ctr, { fixed.2 with ctr := fixed.2.ctr + 1 })
    ({ filterProductID := g.key,
       set := toUpdateSet fixed.1,
       setOnInsertDocId := some onInsert.1 }, onInsert.2)

/-- Fold `buildOp` over the chunk's groups, accumulating the bulk
instructions in group order. -/
def buildOps (st : PipeState) (snapshot : List Product) (gs : List Group) :
    List UpdateOp × PipeState :=
  gs.foldl (fun acc g =>
      let r := buildOp acc.2 snapshot g
      (acc.1 ++ [r.1], r.2)) ([], st)

/-- `processChunk(chunk)`: group, snapshot the existing products, build one
upsert instruction per product group, then apply the batched write. -/
def processChunk (st : PipeState) (chunk : List Row) : PipeState :=
  let grouped := groupChunk chunk st.ctr
  let snapshot := st.store.products
  let built := buildOps { st with ctr := grouped.2 } snapshot grouped.1
  { built.2 with
      store := { built.2.store with
                   products := applyOps built.2.store.products built.1 } }

/-- A whole run over the file's chunk sequence. -/
def runChunks (st : PipeState) (cs : List (List Row)) : PipeState :=
  cs.foldl processChunk st

/-- The initial service state: empty persistent store, empty caches. -/
def initState : PipeState :=
  { store := { vendors := [], manufacturers := [], products := [] },
    ctr := 0, vendorCache := [], manufacturerCache := [], lookups := 0 }

/-! ## The streaming driver of `importProducts`

The parsed stream delivers rows, or fails with a read error.  Whether a
chunk's processing fails is abstracted by an oracle `proc` (chunk failures
come from the persistent store, outside this model); the driver records each
attempted chunk with its outcome.  The source catches a chunk failure, logs
it and resumes the stream; a stream read error rejects the whole run without
attempting the pending chunk. -/

inductive StreamEvent where
  | rowEv (r : Row)
  | readErr
  deriving DecidableEq, Repr

/-- The `data` / `end` / `error` handler loop of `importProducts`: `pending`
is the chunk under accumulation; the returned flag is `true` when the run
resolves (reported completed) and `false` when it rejects. -/
def driveWith (proc : List Row → Bool) (chunkSize : Nat) :
    List StreamEvent → List Row → List (List Row × Bool) × Bool
  | [], pending =>
    (if pending.isEmpty then [] else [(pending, proc pending)], true)
  | StreamEvent.rowEv r :: evs, pending =>
    let pending' := pending ++ [r]
    if chunkSize ≤ pending'.length then
      let rest := driveWith proc chunkSize evs []
      ((pending', proc pending') :: rest.1, rest.2)
    else driveWith proc chunkSize evs pending'
  | StreamEvent.readErr :: _, _ => ([], false)

/-- First lookup of a product by its external key. -/
def findProduct (ps : List Product) (k : String) : Option Product :=
  ps.find? (fun p => p.productID = k)

/-! ## Observations used by the theorems -/

/-- The skus of a variant list. -/
def skus (l : List Variant) : List String := l.map (fun v => v.sku)

/-- First variant carrying a given sku. -/
def findBySku (l : List Variant) (s : String) : Option Variant :=
  l.find? (fun v => v.sku = s)

/-! ## Lemmas about the sku-keyed map -/

/-- Well-formedness of a variant map: keys are distinct, and every entry is
stored under its own sku. -/
def vmWF (m : VMap) : Prop :=
  (m.map Prod.fst).Nodup ∧ ∀ p ∈ m, p.2.sku = p.1

theorem vmHas_iff {m : VMap} {k : String} :
    vmHas m k = true ↔ k ∈ m.map Prod.fst := by
  simp only [vmHas, List.any_eq_true, decide_eq_true_eq, List.mem_map]

theorem vmHas_eq_false {m : VMap} {k : String} :
    vmHas m k = false ↔ k ∉ m.map Prod.fst := by
  constructor
  · intro h hm
    have hT := vmHas_iff.mpr hm
    rw [h] at hT
    exact Bool.false_ne_true hT
  · intro h
    cases hh : vmHas m k with
    | false => rfl
    | true => exact absurd (vmHas_iff.mp hh) h

theorem keys_vmSet_of_has {m : VMap} {k : String} (h : vmHas m k = true)
    (v : Variant) : (vmSet m k v).map Prod.fst = m.map Prod.fst := by
  simp only [vmSet, h, if_true, List.map_map]
  apply List.map_congr_left
  intro p _
  by_cases hp : p.1 = k <;> simp [hp]

theorem keys_vmSet_of_not_has {m : VMap} {k : String} (h : vmHas m k = false)
    (v : Variant) : (vmSet m k v).map Prod.fst = m.map Prod.fst ++ [k] := by
  simp [vmSet, h]

theorem vmWF_vmSet {m : VMap} {k : String} {v : Variant} (h : vmWF m)
    (hv : v.sku = k) : vmWF (vmSet m k v) := by
  obtain ⟨h1, h2⟩ := h
  constructor
  · cases hh : vmHas m k with
    | true => rw [keys_vmSet_of_has hh]; exact h1
    | false =>
      rw [keys_vmSet_of_not_has hh]
      have hk : k ∉ m.map Prod.fst := vmHas_eq_false.mp hh
      exact h1.append (List.nodup_singleton k)
        (by intro a ha hb
            rw [List.mem_singleton] at hb
            subst hb
            exact hk ha)
  · intro p hp
    cases hh : vmHas m k with
    | true =>
      simp only [vmSet, hh, if_true, List.mem_map] at hp
      obtain ⟨q, hq, rfl⟩ := hp
      by_cases hqk : q.1 = k <;> simp [hqk, hv, h2 q hq]
    | false =>
      simp only [vmSet, hh, Bool.false_eq_true, if_false, List.mem_append,
        List.mem_singleton] at hp
      rcases hp with hp | hp
      · exact h2 p hp
      · subst hp
        exact hv

theorem vmGet_vmSet_self {m : VMap} {k : String} (v : Variant) :
    vmGet (vmSet m k v) k = some v := by
  cases hh : vmHas m k with
  | true =>
    simp only [vmSet, hh, if_true, vmGet]
    induction m with
    | nil => simp [vmHas] at hh
    | cons p t ih =>
      by_cases hp : p.1 = k
      · rw [List.map_cons, if_pos hp, List.find?_cons_of_pos _ (by simp)]
        simp
      · rw [List.map_cons, if_neg hp, List.find?_cons_of_neg _ (by simp [hp])]
        have ht : vmHas t k = true := by
          have := hh
          simp only [vmHas, List.any_cons, Bool.or_eq_true, decide_eq_true_eq] at this
          rcases this with h | h
          · exact absurd h hp
          · simpa [vmHas] using h
        exact ih ht
  | false =>
    have hk : k ∉ m.map Prod.fst := vmHas_eq_false.mp hh
    simp only [vmSet, hh, Bool.false_eq_true, if_false, vmGet, List.find?_append]
    have hnone : m.find? (fun p => p.1 = k) = none := by
      apply List.find?_eq_none.mpr
      intro p hp
      simp only [decide_eq_true_eq]
      intro hpk
      exact hk (List.mem_map.mpr ⟨p, hp, hpk⟩)
    rw [hnone]
    simp [List.find?_cons_of_pos]

theorem find_replace_other (t : VMap) (k s : String) (v : Variant)
    (hne : s ≠ k) :
    (t.map (fun p => if p.1 = k then (k, v) else p)).find? (fun p => p.1 = s)
      = t.find? (fun p => p.1 = s) := by
  induction t with
  | nil => rfl
  | cons p t ih =>
    by_cases hp : p.1 = k
    · rw [List.map_cons, if_pos hp,
        List.find?_cons_of_neg _ (by simp [Ne.symm hne]),
        List.find?_cons_of_neg _ (by simp [hp, Ne.symm hne])]
      exact ih
    · by_cases hps : p.1 = s
      · rw [List.map_cons, if_neg hp,
          List.find?_cons_of_pos _ (by simp [hps]),
          List.find?_cons_of_pos _ (by simp [hps])]
      · rw [List.map_cons, if_neg hp,
          List.find?_cons_of_neg _ (by simp [hps]),
          List.find?_cons_of_neg _ (by simp [hps])]
        exact ih

theorem vmGet_vmSet_other {m : VMap} {k s : String} (v : Variant)
    (hne : s ≠ k) : vmGet (vmSet m k v) s = vmGet m s := by
  cases hh : vmHas m k with
  | true =>
    simp only [vmSet, hh, if_true, vmGet]
    rw [find_replace_other m k s v hne]
  | false =>
    have h1 : List.find? (fun p => decide (p.1 = s)) [(k, v)] = none := by
      rw [List.find?_cons_of_neg _ (by simp [Ne.symm hne])]
      rfl
    simp only [vmSet, hh, Bool.false_eq_true, if_false, vmGet,
      List.find?_append, h1]
    cases m.find? (fun p => decide (p.1 = s)) <;> rfl

theorem vmGet_eq_none_of_not_has {m : VMap} {k : String}
    (h : vmHas m k = false) : vmGet m k = none := by
  have hk : k ∉ m.map Prod.fst := vmHas_eq_false.mp h
  simp only [vmGet]
  have hnone : m.find? (fun p => p.1 = k) = none := by
    apply List.find?_eq_none.mpr
    intro p hp
    simp only [decide_eq_true_eq]
    intro hpk
    exact hk (List.mem_map.mpr ⟨p, hp, hpk⟩)
  rw [hnone]
  rfl

theorem vmGet_isSome_of_has {m : VMap} {k : String} (h : vmHas m k = true) :
    ∃ e, vmGet m k = some e := by
  rw [vmHas_iff] at h
  obtain ⟨p, hp, hpk⟩ := List.mem_map.mp h
  simp only [vmGet]
  have hsome : (m.find? (fun p => p.1 = k)).isSome := by
    apply List.find?_isSome.mpr
    exact ⟨p, hp, by simp [hpk]⟩
  obtain ⟨q, hq⟩ := Option.isSome_iff_exists.mp hsome
  exact ⟨q.2, by rw [hq]; rfl⟩

/-- With a well-formed map, scanning the values for a sku is exactly a map
lookup at that sku. -/
theorem find_values_eq_vmGet {m : VMap} (h : vmWF m) (s : String) :
    (vmValues m).find? (fun v => v.sku = s) = vmGet m s := by
  induction m with
  | nil => rfl
  | cons p t ih =>
    have hsku : p.2.sku = p.1 := h.2 p (List.mem_cons_self p t)
    have ht : vmWF t :=
      ⟨(List.nodup_cons.mp h.1).2, fun q hq => h.2 q (List.mem_cons_of_mem p hq)⟩
    by_cases hp : p.1 = s
    · rw [vmValues, List.map_cons,
        List.find?_cons_of_pos _ (by simp [hsku, hp]), vmGet,
        List.find?_cons_of_pos _ (by simp [hp])]
      rfl
    · rw [vmValues, List.map_cons,
        List.find?_cons_of_neg _ (by simp [hsku, hp]), vmGet,
        List.find?_cons_of_neg _ (by simp [hp])]
      exact ih ht

theorem vmHas_append_single {m : VMap} {k x : String} {v : Variant} :
    vmHas (m ++ [(k, v)]) x = (vmHas m x || decide (x = k)) := by
  simp [vmHas, List.any_append, eq_comm]

theorem vmGet_of_mem_wf {m : VMap} (h : vmWF m) {p : String × Variant}
    (hp : p ∈ m) : vmGet m p.1 = some p.2 := by
  induction m with
  | nil => cases hp
  | cons q t ih =>
    have ht : vmWF t :=
      ⟨(List.nodup_cons.mp h.1).2, fun r hr => h.2 r (List.mem_cons_of_mem q hr)⟩
    rcases List.mem_cons.mp hp with rfl | hp'
    · rw [vmGet, List.find?_cons_of_pos _ (by simp)]
      rfl
    · have hq : q.1 ≠ p.1 := by
        intro hEq
        have : q.1 ∈ t.map Prod.fst := hEq ▸ List.mem_map.mpr ⟨p, hp', rfl⟩
        exact (List.nodup_cons.mp h.1).1 this
      rw [vmGet, List.find?_cons_of_neg _ (by simpa using hq)]
      exact ih ht hp'

theorem vmWF_buildVariantMap (es : List Variant) : vmWF (buildVariantMap es) := by
  suffices h : ∀ m : VMap, vmWF m → vmWF (es.foldl (fun m e => vmSet m e.sku e) m) from
    h [] ⟨List.nodup_nil, by intro p hp; cases hp⟩
  induction es with
  | nil => intro m hm; exact hm
  | cons e t ih =>
    intro m hm
    exact ih (vmSet m e.sku e) (vmWF_vmSet hm rfl)

theorem vmWF_mergeStep {m : VMap} (h : vmWF m) (v : Variant) :
    vmWF (mergeStep m v) := by
  rw [mergeStep]
  cases vmGet m v.sku with
  | none => exact vmWF_vmSet h rfl
  | some e =>
    by_cases hu : isVariantUpdated e v = true
    · simpa [hu] using vmWF_vmSet h (v := v) (k := v.sku) rfl
    · simpa [hu] using h

theorem vmWF_foldl_mergeStep {m : VMap} (h : vmWF m) (vs : List Variant) :
    vmWF (vs.foldl mergeStep m) := by
  induction vs generalizing m with
  | nil => exact h
  | cons v t ih => exact ih (vmWF_mergeStep h v)

theorem skus_vmValues {m : VMap} (h : vmWF m) :
    skus (vmValues m) = m.map Prod.fst := by
  simp only [skus, vmValues, List.map_map]
  apply List.map_congr_left
  intro p hp
  exact h.2 p hp

/-- Any output of the variant merge has pairwise-distinct skus: the values of
a well-formed map carry its keys, which are distinct. -/
theorem mergeVariants_skus_nodup (es vs : List Variant) :
    (skus (mergeVariants es vs)).Nodup := by
  have h := vmWF_foldl_mergeStep (vmWF_buildVariantMap es) vs
  rw [mergeVariants, skus_vmValues h]
  exact h.1

/-- A `foldl` of `vmSet` over fresh, pairwise-distinct skus appends the
corresponding entries in order. -/
theorem foldl_vmSet_append (es : List Variant) :
    ∀ m : VMap, (es.map (fun e => e.sku)).Nodup →
      (∀ e ∈ es, e.sku ∉ m.map Prod.fst) →
      es.foldl (fun m e => vmSet m e.sku e) m = m ++ es.map (fun e => (e.sku, e)) := by
  induction es with
  | nil => intro m _ _; simp
  | cons e t ih =>
    intro m hnd hdis
    have hh : vmHas m e.sku = false :=
      vmHas_eq_false.mpr (hdis e (List.mem_cons_self e t))
    rw [List.foldl_cons]
    have step : vmSet m e.sku e = m ++ [(e.sku, e)] := by
      simp [vmSet, hh]
    rw [step, ih (m ++ [(e.sku, e)]) (List.nodup_cons.mp hnd).2]
    · simp
    · intro w hw
      rw [List.map_append, List.mem_append]
      rintro (hw1 | hw2)
      · exact hdis w (List.mem_cons_of_mem e hw) hw1
      · simp only [List.map_cons, List.map_nil, List.mem_singleton] at hw2
        have hmem : w.sku ∈ t.map (fun e => e.sku) := List.mem_map.mpr ⟨w, hw, rfl⟩
        rw [hw2] at hmem
        exact (List.nodup_cons.mp hnd).1 hmem

theorem buildVariantMap_eq {es : List Variant} (hnd : (skus es).Nodup) :
    buildVariantMap es = es.map (fun e => (e.sku, e)) := by
  have := foldl_vmSet_append es [] hnd (by intro e _ h; cases h)
  simpa [buildVariantMap] using this

theorem vmGet_pairs (es : List Variant) (s : String) :
    vmGet (es.map (fun e => (e.sku, e))) s = findBySku es s := by
  induction es with
  | nil => rfl
  | cons e t ih =>
    by_cases he : e.sku = s
    · rw [List.map_cons, vmGet, List.find?_cons_of_pos _ (by simp [he]),
        findBySku, List.find?_cons_of_pos _ (by simp [he])]
      rfl
    · rw [List.map_cons, vmGet, List.find?_cons_of_neg _ (by simp [he]),
        findBySku, List.find?_cons_of_neg _ (by simp [he])]
      exact ih

theorem vmHas_pairs (es : List Variant) (s : String) :
    vmHas (es.map (fun e => (e.sku, e))) s = es.any (fun e => e.sku = s) := by
  induction es with
  | nil => rfl
  | cons e t ih =>
    show (decide (e.sku = s) || vmHas (t.map (fun e => (e.sku, e))) s)
        = (decide (e.sku = s) || t.any (fun e => e.sku = s))
    rw [ih]

theorem vmGet_mergeStep_other {m : VMap} {s : String} {v : Variant}
    (hne : s ≠ v.sku) : vmGet (mergeStep m v) s = vmGet m s := by
  rw [mergeStep]
  cases vmGet m v.sku with
  | none => exact vmGet_vmSet_other v hne
  | some e =>
    by_cases hu : isVariantUpdated e v = true
    · simpa [hu] using vmGet_vmSet_other v hne
    · simp [hu]

theorem vmGet_foldl_not_mem {vs : List Variant} {s : String}
    (h : s ∉ vs.map (fun v => v.sku)) (m : VMap) :
    vmGet (vs.foldl mergeStep m) s = vmGet m s := by
  induction vs generalizing m with
  | nil => rfl
  | cons v t ih =>
    have hs : s ≠ v.sku := by
      intro hEq
      exact h (List.mem_cons.mpr (Or.inl hEq))
    rw [List.foldl_cons, ih (fun hm => h (List.mem_cons_of_mem _ hm)),
      vmGet_mergeStep_other hs]

/-- Lookup characterization of the incoming-variant fold: a present sku is
replaced only on a detected change, a fresh sku is inserted. -/
theorem vmGet_foldl_mergeStep {m : VMap} (h : vmWF m) {vs : List Variant}
    (hvs : (vs.map (fun v => v.sku)).Nodup) (s : String) :
    vmGet (vs.foldl mergeStep m) s =
      match vmGet m s, vs.find? (fun v => v.sku = s) with
      | some e, some v => some (if isVariantUpdated e v then v else e)
      | some e, none => some e
      | none, some v => some v
      | none, none => none := by
  induction vs generalizing m with
  | nil =>
    rw [List.foldl_nil]
    cases vmGet m s <;> rfl
  | cons v t ih =>
    rw [List.foldl_cons]
    by_cases hs : s = v.sku
    · subst hs
      have hnt : v.sku ∉ t.map (fun v => v.sku) := (List.nodup_cons.mp hvs).1
      rw [vmGet_foldl_not_mem hnt, List.find?_cons_of_pos _ (by simp)]
      cases hg : vmGet m v.sku with
      | none => simp only [mergeStep, hg, vmGet_vmSet_self]
      | some e =>
        by_cases hu : isVariantUpdated e v = true
        · simp only [mergeStep, hg, hu, if_true, vmGet_vmSet_self]
        · simp only [mergeStep, hg, hu, Bool.false_eq_true, if_false]
    · rw [ih (vmWF_mergeStep h v) (List.nodup_cons.mp hvs).2,
        vmGet_mergeStep_other hs,
        List.find?_cons_of_neg _ (by simpa using Ne.symm hs)]

/-- The replacement applied to an existing map entry by the incoming variants
`vs`: replaced in place when a same-sku incoming variant differs, untouched
otherwise. -/
def replaceEntry (vs : List Variant) (p : String × Variant) : String × Variant :=
  match vs.find? (fun v => v.sku = p.1) with
  | some v => (p.1, if isVariantUpdated p.2 v then v else p.2)
  | none => p

theorem replaceEntry_key (vs : List Variant) (p : String × Variant) :
    (replaceEntry vs p).1 = p.1 := by
  rw [replaceEntry]
  cases vs.find? (fun v => v.sku = p.1) <;> rfl

/-- Structure of the incoming-variant fold over a well-formed map: existing
entries stay in place (replaced only on change), fresh skus are appended in
incoming order. -/
theorem foldl_mergeStep_structure {vs : List Variant}
    (hvs : (vs.map (fun v => v.sku)).Nodup) :
    ∀ m : VMap, vmWF m →
      vs.foldl mergeStep m =
        m.map (replaceEntry vs) ++
          (vs.filter (fun v => !vmHas m v.sku)).map (fun v => (v.sku, v)) := by
  induction vs with
  | nil =>
    intro m _
    have : m.map (replaceEntry []) = m := by
      apply List.map_congr_left ?_ |>.trans (List.map_id m)
      intro p _
      rfl
    simp [this]
  | cons v t ih =>
    intro m hm
    have hnt : v.sku ∉ t.map (fun v => v.sku) := (List.nodup_cons.mp hvs).1
    have htnd : (t.map (fun v => v.sku)).Nodup := (List.nodup_cons.mp hvs).2
    rw [List.foldl_cons]
    cases hg : vmGet m v.sku with
    | some e =>
      have hhas : vmHas m v.sku = true := by
        cases hh : vmHas m v.sku with
        | true => rfl
        | false => rw [vmGet_eq_none_of_not_has hh] at hg; cases hg
      have hms : mergeStep m v
          = if isVariantUpdated e v = true then vmSet m v.sku v else m := by
        simp only [mergeStep, hg]
      have hkeys : (mergeStep m v).map Prod.fst = m.map Prod.fst := by
        rw [hms]
        by_cases hu : isVariantUpdated e v = true
        · rw [if_pos hu]
          exact keys_vmSet_of_has hhas v
        · rw [if_neg hu]
      have hwf' : vmWF (mergeStep m v) := vmWF_mergeStep hm v
      rw [ih htnd (mergeStep m v) hwf']
      have hmap : (mergeStep m v).map (replaceEntry t) = m.map (replaceEntry (v :: t)) := by
        rw [hms]
        by_cases hu : isVariantUpdated e v = true
        · rw [if_pos hu]
          simp only [vmSet, hhas, if_true, List.map_map]
          apply List.map_congr_left
          intro p hp
          by_cases hpk : p.1 = v.sku
          · have hpe : p.2 = e := by
              have := vmGet_of_mem_wf hm hp
              rw [hpk, hg] at this
              exact (Option.some.inj this).symm
            have htnone : t.find? (fun w => w.sku = v.sku) = none := by
              apply List.find?_eq_none.mpr
              intro w hw
              simp only [decide_eq_true_eq]
              intro hww
              exact hnt (hww ▸ List.mem_map.mpr ⟨w, hw, rfl⟩)
            have hL : replaceEntry t ((v.sku, v) : String × Variant) = (v.sku, v) := by
              rw [replaceEntry]
              simp only [htnone]
            have hR : replaceEntry (v :: t) p = (p.1, v) := by
              rw [replaceEntry, List.find?_cons_of_pos _ (by simpa using hpk.symm)]
              simp only [hpe, hu, if_true]
            show replaceEntry t (if p.1 = v.sku then (v.sku, v) else p)
                = replaceEntry (v :: t) p
            rw [if_pos hpk, hL, hR, hpk]
          · show replaceEntry t (if p.1 = v.sku then (v.sku, v) else p)
                = replaceEntry (v :: t) p
            rw [if_neg hpk, replaceEntry, replaceEntry,
              List.find?_cons_of_neg _ (by simpa using fun h => hpk h.symm)]
        · rw [if_neg hu]
          apply List.map_congr_left
          intro p hp
          by_cases hpk : p.1 = v.sku
          · have hpe : p.2 = e := by
              have := vmGet_of_mem_wf hm hp
              rw [hpk, hg] at this
              exact (Option.some.inj this).symm
            have htnone : t.find? (fun w => w.sku = v.sku) = none := by
              apply List.find?_eq_none.mpr
              intro w hw
              simp only [decide_eq_true_eq]
              intro hww
              exact hnt (hww ▸ List.mem_map.mpr ⟨w, hw, rfl⟩)
            have hu' : isVariantUpdated p.2 v = false := by
              rw [hpe]
              cases hb : isVariantUpdated e v with
              | true => exact absurd hb hu
              | false => rfl
            have hL : replaceEntry t p = p := by
              have ht' : t.find? (fun w => w.sku = p.1) = none := by
                rw [hpk]; exact htnone
              rw [replaceEntry]
              simp only [ht']
            have hR : replaceEntry (v :: t) p = p := by
              rw [replaceEntry, List.find?_cons_of_pos _ (by simpa using hpk.symm)]
              simp only [hu', Bool.false_eq_true, if_false]
            rw [hL, hR]
          · rw [replaceEntry, replaceEntry,
              List.find?_cons_of_neg _ (by simpa using fun h => hpk h.symm)]
      have hfilt : t.filter (fun w => !vmHas (mergeStep m v) w.sku)
          = (v :: t).filter (fun w => !vmHas m w.sku) := by
        have hv_in : (!vmHas m v.sku) = false := by rw [hhas]; rfl
        rw [List.filter_cons, hv_in]
        simp only [Bool.false_eq_true, if_false]
        apply List.filter_congr
        intro w hw
        have : vmHas (mergeStep m v) w.sku = vmHas m w.sku := by
          have h1 : w.sku ∈ (mergeStep m v).map Prod.fst ↔ w.sku ∈ m.map Prod.fst := by
            rw [hkeys]
          cases hmw : vmHas m w.sku with
          | true => exact vmHas_iff.mpr (h1.mpr (vmHas_iff.mp hmw))
          | false =>
            cases hmw' : vmHas (mergeStep m v) w.sku with
            | false => rfl
            | true =>
              exact absurd (h1.mp (vmHas_iff.mp hmw')) (vmHas_eq_false.mp hmw)
        rw [this]
      rw [hmap, hfilt]
    | none =>
      have hhas : vmHas m v.sku = false := by
        cases hh : vmHas m v.sku with
        | false => rfl
        | true =>
          obtain ⟨e, he⟩ := vmGet_isSome_of_has hh
          rw [hg] at he; cases he
      have hv_not : v.sku ∉ m.map Prod.fst := vmHas_eq_false.mp hhas
      have hstep : mergeStep m v = m ++ [(v.sku, v)] := by
        simp only [mergeStep, hg]
        simp [vmSet, hhas]
      have hwf' : vmWF (m ++ [(v.sku, v)]) := by
        rw [← hstep]
        exact vmWF_mergeStep hm v
      rw [hstep, ih htnd _ hwf']
      have hmap : (m ++ [(v.sku, v)]).map (replaceEntry t)
          = m.map (replaceEntry (v :: t)) ++ [(v.sku, v)] := by
        rw [List.map_append]
        congr 1
        · apply List.map_congr_left
          intro p hp
          have hpk : p.1 ≠ v.sku := by
            intro hEq
            exact hv_not (hEq ▸ List.mem_map.mpr ⟨p, hp, rfl⟩)
          rw [replaceEntry, replaceEntry,
            List.find?_cons_of_neg _ (by simpa using fun h => hpk h.symm)]
        · have htnone : t.find? (fun w => w.sku = v.sku) = none := by
            apply List.find?_eq_none.mpr
            intro w hw
            simp only [decide_eq_true_eq]
            intro hww
            exact hnt (hww ▸ List.mem_map.mpr ⟨w, hw, rfl⟩)
          simp only [List.map_cons, List.map_nil]
          rw [replaceEntry]
          simp only [htnone]
      have hfilt : t.filter (fun w => !vmHas (m ++ [(v.sku, v)]) w.sku)
          = t.filter (fun w => !vmHas m w.sku) := by
        apply List.filter_congr
        intro w hw
        have hws : w.sku ≠ v.sku := by
          intro hEq
          exact hnt (hEq ▸ List.mem_map.mpr ⟨w, hw, rfl⟩)
        rw [vmHas_append_single]
        simp [hws]
      have hvfilt : (v :: t).filter (fun w => !vmHas m w.sku)
          = v :: t.filter (fun w => !vmHas m w.sku) := by
        rw [List.filter_cons, hhas]
        rfl
      rw [hmap, hfilt, hvfilt]
      simp

/-- Value-level structure of the merge: previously existing variants first,
in their stored order, each replaced in place exactly when a same-sku
incoming variant differs in the detected fields; then the fresh-sku incoming
variants, in incoming order. -/
theorem mergeVariants_eq {es vs : List Variant} (he : (skus es).Nodup)
    (hv : (skus vs).Nodup) :
    mergeVariants es vs =
      es.map (fun e =>
        match findBySku vs e.sku with
        | some v => if isVariantUpdated e v then v else e
        | none => e)
      ++ vs.filter (fun v => !es.any (fun e => e.sku = v.sku)) := by
  have hb := buildVariantMap_eq he
  have hwf : vmWF (es.map (fun e => (e.sku, e))) := hb ▸ vmWF_buildVariantMap es
  rw [mergeVariants, hb, foldl_mergeStep_structure hv _ hwf, vmValues,
    List.map_append]
  congr 1
  · rw [List.map_map, List.map_map]
    apply List.map_congr_left
    intro e _
    show (replaceEntry vs (e.sku, e)).2 = _
    rw [replaceEntry]
    cases hf : vs.find? (fun v => v.sku = e.sku) with
    | some v => simp [findBySku, hf]
    | none => simp [findBySku, hf]
  · rw [List.map_map]
    have hfilt : (vs.filter fun v => !vmHas (es.map fun e => (e.sku, e)) v.sku)
        = vs.filter (fun v => !es.any (fun e => e.sku = v.sku)) := by
      apply List.filter_congr
      intro v _
      rw [vmHas_pairs]
    rw [hfilt]
    exact (List.map_congr_left (fun v _ => rfl)).trans (List.map_id _)

/-- When every incoming sku is fresh, the merge is plain concatenation. -/
theorem mergeVariants_append {es vs : List Variant} (he : (skus es).Nodup)
    (hv : (skus vs).Nodup)
    (hdisj : ∀ v ∈ vs, es.any (fun e => e.sku = v.sku) = false) :
    mergeVariants es vs = es ++ vs := by
  rw [mergeVariants_eq he hv]
  congr 1
  · have hmap : ∀ e ∈ es,
        (match findBySku vs e.sku with
         | some v => if isVariantUpdated e v then v else e
         | none => e) = e := by
      intro e hmem
      cases hf : findBySku vs e.sku with
      | none => rfl
      | some v =>
        have hvmem : v ∈ vs := List.mem_of_find?_eq_some hf
        have hsk : v.sku = e.sku := by
          have := List.find?_some hf
          simpa using this
        have hany : es.any (fun w => w.sku = v.sku) = true :=
          List.any_eq_true.mpr ⟨e, hmem, by simp [hsk]⟩
        rw [hdisj v hvmem] at hany
        cases hany
    exact (List.map_congr_left hmap).trans (List.map_id es)
  · have : ∀ v ∈ vs, (!es.any (fun e => e.sku = v.sku)) = true := by
      intro v hvmem
      rw [hdisj v hvmem]
      rfl
    exact List.filter_eq_self.mpr this

/-- When every incoming variant matches a stored variant of the same sku with
no detected change, the merge returns the stored list unchanged. -/
theorem mergeVariants_identity {es vs : List Variant} (he : (skus es).Nodup)
    (hv : (skus vs).Nodup)
    (hcov : ∀ v ∈ vs, ∃ e ∈ es, e.sku = v.sku ∧ isVariantUpdated e v = false) :
    mergeVariants es vs = es := by
  rw [mergeVariants_eq he hv]
  have hfilt : vs.filter (fun v => !es.any (fun e => e.sku = v.sku)) = [] := by
    apply List.filter_eq_nil_iff.mpr
    intro v hvmem
    obtain ⟨e, hmem, hsk, _⟩ := hcov v hvmem
    have hany : es.any (fun w => w.sku = v.sku) = true :=
      List.any_eq_true.mpr ⟨e, hmem, by simp [hsk]⟩
    simp [hany]
  rw [hfilt, List.append_nil]
  have hmap : ∀ e ∈ es,
      (match findBySku vs e.sku with
       | some v => if isVariantUpdated e v then v else e
       | none => e) = e := by
    intro e hmem
    cases hf : findBySku vs e.sku with
    | none => rfl
    | some v =>
      have hvmem : v ∈ vs := List.mem_of_find?_eq_some hf
      have hsk : v.sku = e.sku := by
        have := List.find?_some hf
        simpa using this
      obtain ⟨e', hmem', hsk', hupd⟩ := hcov v hvmem
      have he' : (es.map (fun v => v.sku)).Nodup := he
      have hee : e' = e :=
        List.inj_on_of_nodup_map he' hmem' hmem (by rw [hsk', hsk])
      rw [hee] at hupd
      show (if isVariantUpdated e v = true then v else e) = e
      simp [hupd]
  exact (List.map_congr_left hmap).trans (List.map_id es)

/-! ## Concrete fixtures

The end-to-end example row of the input format, with small variations used by
the witnesses and counterexamples. -/

def rowGauze : Row :=
  { siteSource := "AcmeMed", itemID := "I1", manufacturerID := "M1",
    manufacturerName := "Acme", productID := "P1", productName := "Gauze",
    productDescription := "x", manufacturerItemCode := "C1",
    itemDescription := "Sterile 4x4", imageFileName := "", itemImageURL := "",
    ndcItemCode := "", pkg := "Box10", unitPrice := "10", quantityOnHand := "3",
    availabilityText := "available" }

/-- The same item at unit price 12. -/
def rowGauze12 : Row := { rowGauze with unitPrice := "12" }

/-- A second item of the same product (fresh sku). -/
def rowGauzeB : Row := { rowGauze with itemID := "I2" }

def vGauze : Variant := (constructVariant 0 rowGauze).1

def vGauze12 : Variant := (constructVariant 3 rowGauze12).1

def vGauzeB : Variant := (constructVariant 6 rowGauzeB).1

/-! ## Claim theorems -/

/-- C1: for an existing product's variant list and the incoming variants of a
chunk group, the merged list is the union by sku of the two: a sku present
only on one side contributes that side's variant; on a sku present on both
sides the incoming variant replaces the prior one exactly when price,
availability, or description differ, and otherwise the prior variant is kept
completely unchanged, with all its fields. -/
theorem claim_C1_variant_merge_union (es vs : List Variant)
    (he : (skus es).Nodup) (hv : (skus vs).Nodup) (s : String) :
    findBySku (mergeVariants es vs) s =
      match findBySku es s, findBySku vs s with
      | some e, some v => some (if isVariantUpdated e v then v else e)
      | some e, none => some e
      | none, some v => some v
      | none, none => none := by
  have hb := buildVariantMap_eq he
  have hwf0 := vmWF_buildVariantMap es
  have hwf := vmWF_foldl_mergeStep hwf0 vs
  have h1 : findBySku (mergeVariants es vs) s
      = vmGet (vs.foldl mergeStep (buildVariantMap es)) s :=
    find_values_eq_vmGet hwf s
  rw [h1, vmGet_foldl_mergeStep hwf0 hv s, hb, vmGet_pairs]
  rfl

theorem claim_C1_witness :
    findBySku (mergeVariants [vGauze] [vGauze12]) "I1C1Box10" = some vGauze12 := by
  rw [claim_C1_variant_merge_union [vGauze] [vGauze12] (by decide) (by decide)
    "I1C1Box10"]
  decide

/-- C2 counterexample: a chunk with two rows of the same product yielding the
same sku creates a product whose variant list carries that sku twice — the
creation path performs no deduplication. -/
theorem claim_C2_counterexample :
    ¬ (∀ p ∈ (processChunk initState [rowGauze, rowGauze]).store.products,
        (skus p.variants).Nodup) := by
  decide

/-- C2 (amended): the variant list produced by merging into an existing
product never contains two variants with the same sku; a newly created
product, by contrast, retains one variant per row even when several rows of
its chunk group yield the same sku. -/
theorem claim_C2_merge_no_duplicate_skus (es vs : List Variant) :
    (skus (mergeVariants es vs)).Nodup :=
  mergeVariants_skus_nodup es vs

/-- C6: the merged variant list is in a deterministic order — all previously
existing variants first, in their prior stored order, a replaced variant
occupying the position of the variant it replaces, followed by the
newly-introduced variants in the order their rows appear in the chunk. -/
theorem claim_C6_merge_order (es vs : List Variant)
    (he : (skus es).Nodup) (hv : (skus vs).Nodup) :
    mergeVariants es vs =
      es.map (fun e =>
        match findBySku vs e.sku with
        | some v => if isVariantUpdated e v then v else e
        | none => e)
      ++ vs.filter (fun v => !es.any (fun e => e.sku = v.sku)) :=
  mergeVariants_eq he hv

theorem claim_C6_witness :
    mergeVariants [vGauze] [vGauze12, vGauzeB] = [vGauze12, vGauzeB] := by
  rw [claim_C6_merge_order [vGauze] [vGauze12, vGauzeB] (by decide) (by decide)]
  decide

/-- C7: a built variant is available exactly when the row's QuantityOnHand
parses (by `parseInt`) to an integer strictly greater than zero; a value that
does not parse yields an unavailable variant. -/
theorem claim_C7_available_iff_positive (ctr : Nat) (r : Row) :
    (constructVariant ctr r).1.available = parseBoolean r.quantityOnHand
    ∧ (parseBoolean r.quantityOnHand = true ↔
        ∃ n : Int, jsParseInt r.quantityOnHand = some n ∧ 0 < n)
    ∧ (jsParseInt r.quantityOnHand = none →
        parseBoolean r.quantityOnHand = false) := by
  refine ⟨rfl, ?_, ?_⟩
  · rw [parseBoolean]
    cases h : jsParseInt r.quantityOnHand with
    | none => simp
    | some n => simp
  · intro h
    rw [parseBoolean, h]

theorem claim_C7_witness :
    (constructVariant 0 rowGauze).1.available = parseBoolean "3"
    ∧ (parseBoolean "3" = true ↔ ∃ n : Int, jsParseInt "3" = some n ∧ 0 < n)
    ∧ (jsParseInt "3" = none → parseBoolean "3" = false) :=
  claim_C7_available_iff_positive 0 rowGauze

/-- C9: `enhanceDescription` never raises — it is a total function — and
returns the original description unchanged in all cases, on the pass-through
path as well as on the modelled fallback path. -/
theorem claim_C9_enhance_returns_original (name description : String) :
    enhanceDescription name description = description := rfl

/-- C4 refutation evidence: neither resolver ever reads or writes its
in-memory cache, and every resolution performs a persistent-store lookup —
the `vendorCache` / `manufacturerCache` fields stay untouched and the
round-trip count grows by one on every call, including repeated calls with
the same key. -/
theorem claim_C4_cache_never_used (st : PipeState) (s mid mname : String) :
    (checkVendor st s).2.vendorCache = st.vendorCache
    ∧ (checkVendor st s).2.lookups = st.lookups + 1
    ∧ (ensureManufacturer st mid mname).2.manufacturerCache = st.manufacturerCache
    ∧ (ensureManufacturer st mid mname).2.lookups = st.lookups + 1 := by
  have hv : (checkVendor st s).2.vendorCache = st.vendorCache
      ∧ (checkVendor st s).2.lookups = st.lookups + 1 := by
    cases hf : st.store.vendors.find? (fun v => v.name = s) with
    | none => simp [checkVendor, hf]
    | some v => simp [checkVendor, hf]
  have hm : (ensureManufacturer st mid mname).2.manufacturerCache
        = st.manufacturerCache
      ∧ (ensureManufacturer st mid mname).2.lookups = st.lookups + 1 := by
    cases hf : st.store.manufacturers.find? (fun m => m.manufacturerId = mid) with
    | none => simp [ensureManufacturer, hf]
    | some m => simp [ensureManufacturer, hf]
  exact ⟨hv.1, hv.2, hm.1, hm.2⟩

/-- The driver's chunk progression and final report do not depend on the
chunk-processing outcomes. -/
theorem driveWith_oblivious (proc proc' : List Row → Bool) (n : Nat)
    (evs : List StreamEvent) :
    ∀ pending : List Row,
      ((driveWith proc n evs pending).1.map Prod.fst
          = (driveWith proc' n evs pending).1.map Prod.fst)
      ∧ (driveWith proc n evs pending).2 = (driveWith proc' n evs pending).2 := by
  induction evs with
  | nil =>
    intro pending
    by_cases hp : pending.isEmpty <;> simp [driveWith, hp]
  | cons ev evs ih =>
    intro pending
    cases ev with
    | rowEv r =>
      by_cases hl : n ≤ (pending ++ [r]).length
      · simp only [driveWith, hl, if_true]
        exact ⟨by simp [(ih []).1], (ih []).2⟩
      · simp only [driveWith, hl, if_false]
        exact ih (pending ++ [r])
    | readErr => exact ⟨rfl, rfl⟩

/-- The driver reports the run completed exactly when the stream has no read
error. -/
theorem driveWith_resolves_iff (proc : List Row → Bool) (n : Nat)
    (evs : List StreamEvent) :
    ∀ pending : List Row,
      (driveWith proc n evs pending).2 = true ↔ StreamEvent.readErr ∉ evs := by
  induction evs with
  | nil =>
    intro pending
    by_cases hp : pending.isEmpty <;> simp [driveWith, hp]
  | cons ev evs ih =>
    intro pending
    cases ev with
    | rowEv r =>
      by_cases hl : n ≤ (pending ++ [r]).length
      · simp only [driveWith, hl, if_true]
        rw [ih []]
        simp
      · simp only [driveWith, hl, if_false]
        rw [ih (pending ++ [r])]
        simp
    | readErr => simp [driveWith]

/-- C8: the attempted chunk sequence and the completion report are invariant
under chunk-processing failures — a failing chunk is caught and the driver
proceeds, still reporting the run completed — and the run is reported
completed exactly when the stream raises no read error; only a read error
aborts the run. -/
theorem claim_C8_chunk_failures_contained (proc proc' : List Row → Bool)
    (n : Nat) (evs : List StreamEvent) :
    ((driveWith proc n evs []).1.map Prod.fst
        = (driveWith proc' n evs []).1.map Prod.fst)
    ∧ (driveWith proc n evs []).2 = (driveWith proc' n evs []).2
    ∧ ((driveWith proc n evs []).2 = true ↔ StreamEvent.readErr ∉ evs) :=
  ⟨(driveWith_oblivious proc proc' n evs []).1,
   (driveWith_oblivious proc proc' n evs []).2,
   driveWith_resolves_iff proc n evs []⟩

/-! ## Plumbing: the emitted upsert instructions -/

/-- The bulk instructions `processChunk` emits for a chunk. -/
def chunkOps (st : PipeState) (chunk : List Row) : List UpdateOp :=
  (buildOps { st with ctr := (groupChunk chunk st.ctr).2 } st.store.products
    (groupChunk chunk st.ctr).1).1

theorem checkVendor_products (st : PipeState) (s : String) :
    (checkVendor st s).2.store.products = st.store.products := by
  cases hf : st.store.vendors.find? (fun v => v.name = s) with
  | none => simp [checkVendor, hf]
  | some v => simp [checkVendor, hf]

theorem ensureManufacturer_products (st : PipeState) (mid mname : String) :
    (ensureManufacturer st mid mname).2.store.products = st.store.products := by
  cases hf : st.store.manufacturers.find? (fun m => m.manufacturerId = mid) with
  | none => simp [ensureManufacturer, hf]
  | some m => simp [ensureManufacturer, hf]

theorem buildOp_products (st : PipeState) (snapshot : List Product) (g : Group) :
    (buildOp st snapshot g).2.store.products = st.store.products := by
  have h1 := checkVendor_products st g.row.siteSource
  have h2 := ensureManufacturer_products (checkVendor st g.row.siteSource).2
    g.row.manufacturerID g.row.manufacturerName
  cases hf : snapshot.find? (fun p => p.productID = g.key) with
  | some p =>
    cases hd : p.docId with
    | some d => simp [buildOp, hf, ownedUpdate, hd, h1, h2]
    | none => simp [buildOp, hf, ownedUpdate, hd, h1, h2]
  | none => simp [buildOp, hf, newProductDoc, h1, h2]

theorem buildOps_products (st : PipeState) (snapshot : List Product)
    (gs : List Group) :
    (buildOps st snapshot gs).2.store.products = st.store.products := by
  suffices h : ∀ acc : List UpdateOp × PipeState,
      (gs.foldl (fun acc g =>
        let r := buildOp acc.2 snapshot g
        (acc.1 ++ [r.1], r.2)) acc).2.store.products = acc.2.store.products from
    h ([], st)
  induction gs with
  | nil => intro acc; rfl
  | cons g t ih =>
    intro acc
    rw [List.foldl_cons, ih]
    exact buildOp_products acc.2 snapshot g

theorem processChunk_products (st : PipeState) (chunk : List Row) :
    (processChunk st chunk).store.products
      = applyOps st.store.products (chunkOps st chunk) := by
  show applyOps (buildOps { st with ctr := (groupChunk chunk st.ctr).2 }
      st.store.products (groupChunk chunk st.ctr).1).2.store.products
      (chunkOps st chunk) = _
  rw [buildOps_products]

/-- Membership in the emitted instruction list: every instruction is the
output of `buildOp` on one of the chunk's groups (against the chunk's
snapshot), for some intermediate service state. -/
theorem buildOps_mem (st : PipeState) (snapshot : List Product)
    (gs : List Group) :
    ∀ op ∈ (buildOps st snapshot gs).1,
      ∃ g ∈ gs, ∃ st' : PipeState, op = (buildOp st' snapshot g).1 := by
  suffices h : ∀ acc : List UpdateOp × PipeState, ∀ op ∈ (gs.foldl (fun acc g =>
      let r := buildOp acc.2 snapshot g
      (acc.1 ++ [r.1], r.2)) acc).1,
      op ∈ acc.1 ∨ ∃ g ∈ gs, ∃ st' : PipeState, op = (buildOp st' snapshot g).1 by
    intro op hop
    rcases h ([], st) op hop with h | h
    · cases h
    · exact h
  induction gs with
  | nil =>
    intro acc op hop
    exact Or.inl hop
  | cons g t ih =>
    intro acc op hop
    rw [List.foldl_cons] at hop
    rcases ih _ op hop with h | ⟨g', hg', st', rfl⟩
    · rcases List.mem_append.mp h with h | h
      · exact Or.inl h
      · rw [List.mem_singleton] at h
        exact Or.inr ⟨g, List.mem_cons_self g t, acc.2, h⟩
    · exact Or.inr ⟨g', List.mem_cons_of_mem g hg', st', rfl⟩

theorem buildOp_filter_key (st : PipeState) (snapshot : List Product)
    (g : Group) : (buildOp st snapshot g).1.filterProductID = g.key := by
  cases hf : snapshot.find? (fun p => p.productID = g.key) with
  | some p =>
    cases hd : p.docId with
    | some d => simp [buildOp, hf, ownedUpdate, hd]
    | none => simp [buildOp, hf, ownedUpdate, hd]
  | none => simp [buildOp, hf, newProductDoc]

theorem buildOp_set_key (st : PipeState) (snapshot : List Product)
    (g : Group) : (buildOp st snapshot g).1.set.productID = g.key := by
  cases hf : snapshot.find? (fun p => p.productID = g.key) with
  | some p =>
    have hpk : p.productID = g.key := by
      have := List.find?_some hf
      simpa using this
    cases hd : p.docId with
    | some d => simp [buildOp, hf, toUpdateSet, ownedUpdate, hd, hpk]
    | none => simp [buildOp, hf, toUpdateSet, ownedUpdate, hd, hpk]
  | none => simp [buildOp, hf, newProductDoc, toUpdateSet]

theorem buildOp_setOnInsert (st : PipeState) (snapshot : List Product)
    (g : Group) :
    (buildOp st snapshot g).1.setOnInsertDocId.isSome
      = (snapshot.find? (fun p => p.productID = g.key)).isNone := by
  cases hf : snapshot.find? (fun p => p.productID = g.key) with
  | some p =>
    cases hd : p.docId with
    | some d => simp [buildOp, hf, ownedUpdate, hd]
    | none => simp [buildOp, hf, ownedUpdate, hd]
  | none => simp [buildOp, hf, newProductDoc]

/-! ## Plumbing: applying the batched write -/

theorem applySet_docId (p : Product) (u : UpdateSet) :
    (applySet p u).docId = p.docId := rfl

theorem applySet_productID (p : Product) (u : UpdateSet) :
    (applySet p u).productID = u.productID := rfl

theorem findProduct_any {ps : List Product} {k : String} {p : Product}
    (hp : findProduct ps k = some p) :
    ps.any (fun q => q.productID = k) = true := by
  rw [findProduct] at hp
  apply List.any_eq_true.mpr
  refine ⟨p, List.mem_of_find?_eq_some hp, ?_⟩
  have h2 := List.find?_some hp
  simpa using h2

theorem updateFirst_find_self {ps : List Product} {k : String} {u : UpdateSet}
    {p : Product} (hp : findProduct ps k = some p) (hu : u.productID = k) :
    findProduct (updateFirst ps k u) k = some (applySet p u) := by
  induction ps with
  | nil => cases hp
  | cons q t ih =>
    by_cases hq : q.productID = k
    · have hqp : q = p := by
        rw [findProduct, List.find?_cons_of_pos _ (by simp [hq])] at hp
        exact Option.some.inj hp
      rw [updateFirst, if_pos hq, findProduct,
        List.find?_cons_of_pos _ (by simp [applySet_productID, hu]), hqp]
    · rw [findProduct, List.find?_cons_of_neg _ (by simp [hq])] at hp
      rw [updateFirst, if_neg hq, findProduct,
        List.find?_cons_of_neg _ (by simp [hq])]
      exact ih hp

theorem updateFirst_find_other {ps : List Product} {kf k : String}
    {u : UpdateSet} (hne : k ≠ kf) (hu : u.productID = kf) :
    findProduct (updateFirst ps kf u) k = findProduct ps k := by
  induction ps with
  | nil => rfl
  | cons q t ih =>
    by_cases hq : q.productID = kf
    · rw [updateFirst, if_pos hq, findProduct,
        List.find?_cons_of_neg _ (by simp [applySet_productID, hu, Ne.symm hne]),
        findProduct, List.find?_cons_of_neg _ (by simp [hq, Ne.symm hne])]
    · by_cases hqk : q.productID = k
      · rw [updateFirst, if_neg hq, findProduct,
          List.find?_cons_of_pos _ (by simp [hqk]), findProduct,
          List.find?_cons_of_pos _ (by simp [hqk])]
      · rw [updateFirst, if_neg hq, findProduct,
          List.find?_cons_of_neg _ (by simp [hqk]), findProduct,
          List.find?_cons_of_neg _ (by simp [hqk])]
        exact ih

theorem applyOp_docId_frame {ps : List Product} {op : UpdateOp} {k : String}
    {p : Product} (hset : op.set.productID = op.filterProductID)
    (hp : findProduct ps k = some p) :
    ∃ p', findProduct (applyOp ps op) k = some p' ∧ p'.docId = p.docId := by
  by_cases hk : op.filterProductID = k
  · subst hk
    rw [applyOp, if_pos (findProduct_any hp)]
    exact ⟨applySet p op.set, updateFirst_find_self hp hset, applySet_docId p op.set⟩
  · rw [applyOp]
    by_cases hany : ps.any (fun q => q.productID = op.filterProductID) = true
    · rw [if_pos hany]
      refine ⟨p, ?_, rfl⟩
      rw [updateFirst_find_other (fun h => hk h.symm) hset]
      exact hp
    · rw [if_neg hany]
      refine ⟨p, ?_, rfl⟩
      rw [findProduct, List.find?_append]
      rw [findProduct] at hp
      rw [hp]
      rfl

theorem applyOps_docId_frame {ops : List UpdateOp}
    (hops : ∀ op ∈ ops, op.set.productID = op.filterProductID) :
    ∀ ps k p, findProduct ps k = some p →
      ∃ p', findProduct (applyOps ps ops) k = some p' ∧ p'.docId = p.docId := by
  induction ops with
  | nil =>
    intro ps k p hp
    exact ⟨p, hp, rfl⟩
  | cons op t ih =>
    intro ps k p hp
    obtain ⟨p1, hp1, hd1⟩ :=
      applyOp_docId_frame (hops op (List.mem_cons_self op t)) hp
    obtain ⟨p2, hp2, hd2⟩ :=
      ih (fun o ho => hops o (List.mem_cons_of_mem op ho)) (applyOp ps op) k p1 hp1
    exact ⟨p2, hp2, hd2.trans hd1⟩

theorem chunkOps_set_eq_filter (st : PipeState) (chunk : List Row) :
    ∀ op ∈ chunkOps st chunk, op.set.productID = op.filterProductID := by
  intro op hop
  obtain ⟨g, _, st', rfl⟩ := buildOps_mem _ _ _ op hop
  rw [buildOp_set_key, buildOp_filter_key]

/-- C5: the generated document id is carried only by the insert-only part of
an upsert — an instruction carries a `$setOnInsert` document id exactly when
the chunk's snapshot has no product for its filter key — and applying a
chunk's batched write never changes the stored document id of any product
already in the store, the defensive regeneration path included. -/
theorem claim_C5_docId_insert_only (st : PipeState) (chunk : List Row)
    (k : String) (p : Product)
    (hp : findProduct st.store.products k = some p) :
    (∀ op ∈ chunkOps st chunk,
      op.setOnInsertDocId.isSome
        = (findProduct st.store.products op.filterProductID).isNone)
    ∧ ∃ p', findProduct (processChunk st chunk).store.products k = some p'
        ∧ p'.docId = p.docId := by
  constructor
  · intro op hop
    obtain ⟨g, _, st', rfl⟩ := buildOps_mem _ _ _ op hop
    rw [buildOp_setOnInsert, buildOp_filter_key]
    rfl
  · rw [processChunk_products]
    exact applyOps_docId_frame (chunkOps_set_eq_filter st chunk)
      st.store.products k p hp

/-- The store after importing the example row once. -/
def stepOne : PipeState := processChunk initState [rowGauze]

theorem claim_C5_witness :
    ∃ p, findProduct stepOne.store.products "P1" = some p
      ∧ ∃ p', findProduct (processChunk stepOne [rowGauze12]).store.products "P1"
          = some p' ∧ p'.docId = p.docId := by
  have hs : (findProduct stepOne.store.products "P1").isSome = true := by decide
  obtain ⟨p, hp⟩ := Option.isSome_iff_exists.mp hs
  exact ⟨p, hp, (claim_C5_docId_insert_only stepOne [rowGauze12] "P1" p hp).2⟩

/-! ## Plumbing: where variants come from -/

theorem vmValues_vmSet_mem {m : VMap} {k : String} {v q : Variant}
    (h : q ∈ vmValues (vmSet m k v)) : q ∈ vmValues m ∨ q = v := by
  rw [vmSet] at h
  by_cases hh : vmHas m k
  · rw [if_pos hh] at h
    rw [vmValues, List.map_map] at h
    obtain ⟨p, hp, rfl⟩ := List.mem_map.mp h
    by_cases hpk : p.1 = k
    · right
      simp [Function.comp_apply, hpk]
    · left
      rw [vmValues]
      apply List.mem_map.mpr
      exact ⟨p, hp, by simp [Function.comp_apply, hpk]⟩
  · rw [if_neg hh, vmValues, List.map_append] at h
    rcases List.mem_append.mp h with h | h
    · exact Or.inl h
    · right
      simpa using h

theorem foldl_vmSet_values_mem :
    ∀ (es : List Variant) (m : VMap) (q : Variant),
      q ∈ vmValues (es.foldl (fun m e => vmSet m e.sku e) m) →
        q ∈ vmValues m ∨ q ∈ es := by
  intro es
  induction es with
  | nil =>
    intro m q h1
    exact Or.inl h1
  | cons e t ih =>
    intro m q h1
    rw [List.foldl_cons] at h1
    rcases ih (vmSet m e.sku e) q h1 with h2 | h2
    · rcases vmValues_vmSet_mem h2 with h3 | rfl
      · exact Or.inl h3
      · exact Or.inr (List.mem_cons_self _ _)
    · exact Or.inr (List.mem_cons_of_mem e h2)

theorem mem_vmValues_buildVariantMap {es : List Variant} {q : Variant}
    (h : q ∈ vmValues (buildVariantMap es)) : q ∈ es := by
  rcases foldl_vmSet_values_mem es [] q h with h1 | h1
  · cases h1
  · exact h1

theorem vmValues_mergeStep_mem {m : VMap} {v q : Variant}
    (h : q ∈ vmValues (mergeStep m v)) : q ∈ vmValues m ∨ q = v := by
  cases hg : vmGet m v.sku with
  | none =>
    simp only [mergeStep, hg] at h
    exact vmValues_vmSet_mem h
  | some e =>
    by_cases hu : isVariantUpdated e v = true
    · simp only [mergeStep, hg, hu, if_true] at h
      exact vmValues_vmSet_mem h
    · simp only [mergeStep, hg, hu, Bool.false_eq_true, if_false] at h
      exact Or.inl h

theorem foldl_mergeStep_values_mem :
    ∀ (vs : List Variant) (m : VMap) (q : Variant),
      q ∈ vmValues (vs.foldl mergeStep m) → q ∈ vmValues m ∨ q ∈ vs := by
  intro vs
  induction vs with
  | nil =>
    intro m q h1
    exact Or.inl h1
  | cons v t ih =>
    intro m q h1
    rw [List.foldl_cons] at h1
    rcases ih (mergeStep m v) q h1 with h2 | h2
    · rcases vmValues_mergeStep_mem h2 with h3 | rfl
      · exact Or.inl h3
      · exact Or.inr (List.mem_cons_self _ _)
    · exact Or.inr (List.mem_cons_of_mem v h2)

theorem mem_mergeVariants {es vs : List Variant} {q : Variant}
    (h : q ∈ mergeVariants es vs) : q ∈ es ∨ q ∈ vs := by
  rw [mergeVariants] at h
  rcases foldl_mergeStep_values_mem vs (buildVariantMap es) q h with h1 | h1
  · exact Or.inl (mem_vmValues_buildVariantMap h1)
  · exact Or.inr h1

theorem groupChunk_variants_prop (P : Variant → Prop)
    (hP : ∀ (ctr : Nat) (r : Row), P (constructVariant ctr r).1)
    (chunk : List Row) (ctr : Nat) :
    ∀ g ∈ (groupChunk chunk ctr).1, ∀ v ∈ g.variants, P v := by
  suffices hgen : ∀ acc : List Group × Nat,
      (∀ g ∈ acc.1, ∀ v ∈ g.variants, P v) →
      ∀ g ∈ (chunk.foldl (fun p r => groupStep p.1 p.2 r) acc).1,
        ∀ v ∈ g.variants, P v by
    exact hgen ([], ctr) (by intro g hg; cases hg)
  induction chunk with
  | nil => intro acc hacc; exact hacc
  | cons r t ih =>
    intro acc hacc
    rw [List.foldl_cons]
    apply ih
    intro g hg v hv
    rw [groupStep] at hg
    by_cases hskip : (r.productID = "" || r.itemID = "") = true
    · rw [if_pos hskip] at hg
      exact hacc g hg v hv
    · rw [if_neg hskip] at hg
      obtain ⟨g0, hg0, rfl⟩ := List.mem_map.mp hg
      have hacc1 : ∀ g1, g1 ∈ (if acc.1.any (fun g => g.key = r.productID)
            then acc.1
            else acc.1 ++ [{ key := r.productID, row := r, variants := [] }]) →
          ∀ v1 ∈ g1.variants, P v1 := by
        intro g1 hg1
        by_cases ha : acc.1.any (fun g => g.key = r.productID) = true
        · rw [if_pos ha] at hg1
          exact hacc g1 hg1
        · rw [if_neg ha] at hg1
          rcases List.mem_append.mp hg1 with h1 | h1
          · exact hacc g1 h1
          · rw [List.mem_singleton] at h1
            subst h1
            intro v1 hv1
            cases hv1
      by_cases hk : g0.key = r.productID
      · rw [if_pos hk] at hv
        rcases List.mem_append.mp hv with h1 | h1
        · exact hacc1 g0 hg0 v h1
        · rw [List.mem_singleton] at h1
          subst h1
          exact hP _ _
      · rw [if_neg hk] at hv
        exact hacc1 g0 hg0 v hv

theorem buildOp_variants_prop (P : Variant → Prop)
    {snapshot : List Product}
    (hsnap : ∀ p ∈ snapshot, ∀ v ∈ p.variants, P v)
    {g : Group} (hg : ∀ v ∈ g.variants, P v) (st : PipeState) :
    ∀ v ∈ (buildOp st snapshot g).1.set.variants, P v := by
  cases hf : snapshot.find? (fun p => p.productID = g.key) with
  | some p =>
    have hpmem : p ∈ snapshot := List.mem_of_find?_eq_some hf
    have hvar : (buildOp st snapshot g).1.set.variants
        = mergeVariants p.variants g.variants := by
      cases hd : p.docId with
      | some d => simp [buildOp, hf, toUpdateSet, ownedUpdate, hd]
      | none => simp [buildOp, hf, toUpdateSet, ownedUpdate, hd]
    rw [hvar]
    intro v hv
    rcases mem_mergeVariants hv with h1 | h1
    · exact hsnap p hpmem v h1
    · exact hg v h1
  | none =>
    have hvar : (buildOp st snapshot g).1.set.variants = g.variants := by
      simp [buildOp, hf, newProductDoc, toUpdateSet]
    rw [hvar]
    exact hg

theorem updateFirst_mem {ps : List Product} {k : String} {u : UpdateSet}
    {q : Product} (h : q ∈ updateFirst ps k u) :
    q ∈ ps ∨ ∃ p ∈ ps, q = applySet p u := by
  induction ps with
  | nil => cases h
  | cons p t ih =>
    rw [updateFirst] at h
    by_cases hp : p.productID = k
    · rw [if_pos hp] at h
      rcases List.mem_cons.mp h with h1 | h1
      · exact Or.inr ⟨p, List.mem_cons_self p t, h1⟩
      · exact Or.inl (List.mem_cons_of_mem p h1)
    · rw [if_neg hp] at h
      rcases List.mem_cons.mp h with h1 | h1
      · subst h1
        exact Or.inl (List.mem_cons_self q t)
      · rcases ih h1 with h2 | ⟨p', hp', h2⟩
        · exact Or.inl (List.mem_cons_of_mem p h2)
        · exact Or.inr ⟨p', List.mem_cons_of_mem p hp', h2⟩

theorem applyOp_mem {ps : List Product} {op : UpdateOp} {q : Product}
    (h : q ∈ applyOp ps op) :
    q ∈ ps ∨ (∃ p ∈ ps, q = applySet p op.set) ∨ q = insertOfOp op := by
  rw [applyOp] at h
  by_cases hany : ps.any (fun p => p.productID = op.filterProductID) = true
  · rw [if_pos hany] at h
    rcases updateFirst_mem h with h1 | h1
    · exact Or.inl h1
    · exact Or.inr (Or.inl h1)
  · rw [if_neg hany] at h
    rcases List.mem_append.mp h with h1 | h1
    · exact Or.inl h1
    · rw [List.mem_singleton] at h1
      exact Or.inr (Or.inr h1)

theorem applyOps_variants_prop {P : Variant → Prop} :
    ∀ (ops : List UpdateOp) (ps : List Product),
      (∀ p ∈ ps, ∀ v ∈ p.variants, P v) →
      (∀ op ∈ ops, ∀ v ∈ op.set.variants, P v) →
      ∀ p ∈ applyOps ps ops, ∀ v ∈ p.variants, P v := by
  intro ops
  induction ops with
  | nil => intro ps hps _ p hp; exact hps p hp
  | cons op t ih =>
    intro ps hps hops
    show ∀ p ∈ applyOps (applyOp ps op) t, ∀ v ∈ p.variants, P v
    apply ih
    · intro p hp
      rcases applyOp_mem hp with h1 | ⟨p', _, h1⟩ | h1
      · exact hps p h1
      · subst h1
        exact hops op (List.mem_cons_self op t)
      · subst h1
        exact hops op (List.mem_cons_self op t)
    · intro o ho
      exact hops o (List.mem_cons_of_mem op ho)

/-- Any property that every freshly constructed variant satisfies, and that
every stored variant satisfies, is satisfied by every variant after a
chunk is processed. -/
theorem processChunk_variants_prop {P : Variant → Prop}
    (hP : ∀ (ctr : Nat) (r : Row), P (constructVariant ctr r).1)
    (st : PipeState)
    (hst : ∀ p ∈ st.store.products, ∀ v ∈ p.variants, P v)
    (chunk : List Row) :
    ∀ p ∈ (processChunk st chunk).store.products, ∀ v ∈ p.variants, P v := by
  rw [processChunk_products]
  apply applyOps_variants_prop (chunkOps st chunk) st.store.products hst
  intro op hop
  obtain ⟨g, hgmem, st', rfl⟩ := buildOps_mem _ _ _ op hop
  exact buildOp_variants_prop P hst
    (groupChunk_variants_prop P hP chunk st.ctr g hgmem) st'

/-- C10: every variant built by `constructVariant` carries the fixed currency
`"EUR"` and `active = true`, whatever the row contains; consequently, if
every stored variant carries them, then so does every variant after any
chunk is processed — every variant the pipeline introduces carries them. -/
theorem claim_C10_currency_eur_active :
    (∀ (ctr : Nat) (r : Row), (constructVariant ctr r).1.currency = "EUR"
        ∧ (constructVariant ctr r).1.active = true)
    ∧ ∀ (st : PipeState) (chunk : List Row),
        (∀ p ∈ st.store.products, ∀ v ∈ p.variants,
          v.currency = "EUR" ∧ v.active = true) →
        ∀ p ∈ (processChunk st chunk).store.products, ∀ v ∈ p.variants,
          v.currency = "EUR" ∧ v.active = true := by
  constructor
  · intro ctr r
    exact ⟨rfl, rfl⟩
  · intro st chunk hst
    exact processChunk_variants_prop (fun ctr r => ⟨rfl, rfl⟩) st hst chunk

/-- C3 counterexample: running the same one-chunk file twice from an empty
store changes the store — the duplicate-sku variant pair stored by the
creation path collapses to a single variant on the second run. -/
theorem claim_C3_counterexample :
    (runChunks (runChunks initState [[rowGauze, rowGauze]]) [[rowGauze, rowGauze]]).store
      ≠ (runChunks initState [[rowGauze, rowGauze]]).store := by
  decide

theorem claim_C10_witness :
    ∀ p ∈ (processChunk initState [rowGauze]).store.products, ∀ v ∈ p.variants,
      v.currency = "EUR" ∧ v.active = true :=
  claim_C10_currency_eur_active.2 initState [rowGauze]
    (by intro p hp; exact absurd hp (List.not_mem_nil p))

/-! ## Towards idempotence: row-level observations -/

/-- Rows with both identifying fields present survive the grouping. -/
def validRow (r : Row) : Bool := !(r.productID = "" || r.itemID = "")

/-- The valid rows of one chunk. -/
def chunkRows (c : List Row) : List Row := c.filter validRow

/-- The valid rows of the whole file. -/
def allRows (cs : List (List Row)) : List Row := cs.flatten.filter validRow

/-- The rows of one product. -/
def rowsFor (k : String) (rows : List Row) : List Row :=
  rows.filter (fun r => r.productID = k)

/-- The change-detected data a row determines for its variant: sku, price,
availability, description. -/
def rowFields (r : Row) : String × JNum × Bool × String :=
  (skuOfRow r, parseNumber r.unitPrice, parseBoolean r.quantityOnHand,
    r.itemDescription)

/-- The change-detected data of a stored variant. -/
def varFields (v : Variant) : String × JNum × Bool × String :=
  (v.sku, v.price, v.available, v.description)

theorem varFields_constructVariant (ctr : Nat) (r : Row) :
    varFields (constructVariant ctr r).1 = rowFields r := rfl

theorem varFields_eq_sku {e v : Variant} (h : varFields e = varFields v) :
    e.sku = v.sku := congrArg Prod.fst h

theorem varFields_eq_not_updated {e v : Variant} (h : varFields e = varFields v) :
    isVariantUpdated e v = false := by
  obtain ⟨-, h2, h3, h4⟩ : e.sku = v.sku ∧ e.price = v.price
      ∧ e.available = v.available ∧ e.description = v.description := by
    rw [varFields, varFields] at h
    exact ⟨congrArg (fun q => q.1) h, congrArg (fun q => q.2.1) h,
      congrArg (fun q => q.2.2.1) h, congrArg (fun q => q.2.2.2) h⟩
  simp [isVariantUpdated, h2, h3, h4]

/-- The vendorId the store resolves for a site source. -/
def vidOf (vl : List Vendor) (s : String) : Nat :=
  match vl.find? (fun v => v.name = s) with
  | some v => v.vendorId
  | none => 0

def vendorNamed (vl : List Vendor) (s : String) : Bool :=
  vl.any (fun v => v.name = s)

def manuNamed (ml : List Manufacturer) (k : String) : Bool :=
  ml.any (fun m => m.manufacturerId = k)

theorem vendorNamed_append (vl l : List Vendor) (s : String)
    (h : vendorNamed vl s = true) : vendorNamed (vl ++ l) s = true := by
  rw [vendorNamed, List.any_append]
  rw [vendorNamed] at h
  rw [h]
  rfl

theorem manuNamed_append (ml l : List Manufacturer) (k : String)
    (h : manuNamed ml k = true) : manuNamed (ml ++ l) k = true := by
  rw [manuNamed, List.any_append]
  rw [manuNamed] at h
  rw [h]
  rfl

theorem any_iff_find?_isSome {α : Type} (p : α → Bool) (l : List α) :
    l.any p = true ↔ (l.find? p).isSome = true := by
  induction l with
  | nil => simp
  | cons a t ih =>
    by_cases ha : p a = true
    · rw [List.any_cons, ha, List.find?_cons_of_pos _ ha]
      simp
    · rw [List.any_cons, List.find?_cons_of_neg _ (by simp [ha])]
      simp only [ha, Bool.false_or]
      exact ih

theorem vidOf_append {vl : List Vendor} {s : String}
    (h : vendorNamed vl s = true) (l : List Vendor) :
    vidOf (vl ++ l) s = vidOf vl s := by
  obtain ⟨v, hv⟩ := Option.isSome_iff_exists.mp
    ((any_iff_find?_isSome _ vl).mp h)
  rw [vidOf, vidOf, List.find?_append, hv]
  rfl

/-! ## Towards idempotence: the effect of the batched write -/

theorem findProduct_self_of_nodup {ps : List Product} {p : Product}
    (hnd : (ps.map (fun q => q.productID)).Nodup) (hp : p ∈ ps) :
    findProduct ps p.productID = some p := by
  induction ps with
  | nil => cases hp
  | cons q t ih =>
    rcases List.mem_cons.mp hp with rfl | hp'
    · rw [findProduct, List.find?_cons_of_pos _ (by simp)]
    · have hq : q.productID ≠ p.productID := by
        intro hEq
        have hmem : p.productID ∈ t.map (fun q => q.productID) :=
          List.mem_map.mpr ⟨p, hp', rfl⟩
        rw [← hEq] at hmem
        exact (List.nodup_cons.mp hnd).1 hmem
      rw [findProduct, List.find?_cons_of_neg _ (by simpa using hq)]
      exact ih (List.nodup_cons.mp hnd).2 hp'

theorem findProduct_map {f : Product → Product}
    (hf : ∀ p, (f p).productID = p.productID) (ps : List Product) (k : String) :
    findProduct (ps.map f) k = (findProduct ps k).map f := by
  induction ps with
  | nil => rfl
  | cons p t ih =>
    by_cases hp : p.productID = k
    · rw [List.map_cons, findProduct,
        List.find?_cons_of_pos _ (by simp [hf p, hp]), findProduct,
        List.find?_cons_of_pos _ (by simp [hp])]
      rfl
    · rw [List.map_cons, findProduct,
        List.find?_cons_of_neg _ (by simp [hf p, hp]), findProduct,
        List.find?_cons_of_neg _ (by simp [hp])]
      exact ih

theorem insertOfOp_productID (op : UpdateOp) :
    (insertOfOp op).productID = op.set.productID := rfl

theorem applyOp_find_self {ps : List Product} {op : UpdateOp}
    (hset : op.set.productID = op.filterProductID) :
    findProduct (applyOp ps op) op.filterProductID =
      match findProduct ps op.filterProductID with
      | some p => some (applySet p op.set)
      | none => some (insertOfOp op) := by
  cases hp : findProduct ps op.filterProductID with
  | some p =>
    rw [applyOp, if_pos (findProduct_any hp)]
    exact updateFirst_find_self hp hset
  | none =>
    have hany : ps.any (fun q => q.productID = op.filterProductID) = false := by
      cases ha : ps.any (fun q => q.productID = op.filterProductID) with
      | false => rfl
      | true =>
        obtain ⟨q, hq⟩ := Option.isSome_iff_exists.mp
          ((any_iff_find?_isSome _ ps).mp ha)
        rw [findProduct, hq] at hp
        cases hp
    rw [applyOp, if_neg (by simp [hany]), findProduct, List.find?_append]
    rw [findProduct] at hp
    rw [hp]
    rw [List.find?_cons_of_pos _ (by simp [insertOfOp_productID, hset])]
    rfl

theorem applyOp_find_other {ps : List Product} {op : UpdateOp} {k : String}
    (hset : op.set.productID = op.filterProductID)
    (hk : k ≠ op.filterProductID) :
    findProduct (applyOp ps op) k = findProduct ps k := by
  rw [applyOp]
  by_cases hany : ps.any (fun q => q.productID = op.filterProductID) = true
  · rw [if_pos hany]
    exact updateFirst_find_other hk hset
  · rw [if_neg hany, findProduct, List.find?_append]
    cases hp : findProduct ps k with
    | some p =>
      rw [findProduct] at hp
      rw [hp]
      rfl
    | none =>
      rw [findProduct] at hp
      rw [hp, List.find?_cons_of_neg _
        (by simp [insertOfOp_productID, hset, Ne.symm hk])]
      rfl

/-- Per-key effect of the batched write: a key with no instruction is
untouched; a key with an instruction is overwritten (matched) or inserted
(unmatched). -/
theorem applyOps_find :
    ∀ (ops : List UpdateOp),
      (ops.map (fun op => op.filterProductID)).Nodup →
      (∀ op ∈ ops, op.set.productID = op.filterProductID) →
      ∀ (snapshot : List Product) (k : String),
        findProduct (applyOps snapshot ops) k =
          match findProduct snapshot k,
              ops.find? (fun op => op.filterProductID = k) with
          | some p, some op => some (applySet p op.set)
          | some p, none => some p
          | none, some op => some (insertOfOp op)
          | none, none => none := by
  intro ops
  induction ops with
  | nil =>
    intro _ _ snapshot k
    show findProduct snapshot k = _
    cases findProduct snapshot k <;> rfl
  | cons op t ih =>
    intro hnd hset snapshot k
    show findProduct (applyOps (applyOp snapshot op) t) k = _
    by_cases hk : k = op.filterProductID
    · subst hk
      have htnone : t.find? (fun o => o.filterProductID = op.filterProductID)
          = none := by
        apply List.find?_eq_none.mpr
        intro o ho
        simp only [decide_eq_true_eq]
        intro hEq
        have hmem : o.filterProductID ∈ t.map (fun o => o.filterProductID) :=
          List.mem_map.mpr ⟨o, ho, rfl⟩
        rw [hEq] at hmem
        exact (List.nodup_cons.mp hnd).1 hmem
      rw [ih (List.nodup_cons.mp hnd).2
        (fun o ho => hset o (List.mem_cons_of_mem op ho)) (applyOp snapshot op)
        op.filterProductID,
        htnone, applyOp_find_self (hset op (List.mem_cons_self op t)),
        List.find?_cons_of_pos _ (by simp)]
      cases findProduct snapshot op.filterProductID <;> rfl
    · rw [ih (List.nodup_cons.mp hnd).2
        (fun o ho => hset o (List.mem_cons_of_mem op ho)) (applyOp snapshot op) k,
        applyOp_find_other (hset op (List.mem_cons_self op t)) hk,
        List.find?_cons_of_neg _ (by simpa using fun h => hk h.symm)]

theorem updateFirst_keys {ps : List Product} {k : String} {u : UpdateSet}
    (hu : u.productID = k) :
    (updateFirst ps k u).map (fun p => p.productID)
      = ps.map (fun p => p.productID) := by
  induction ps with
  | nil => rfl
  | cons q t ih =>
    by_cases hq : q.productID = k
    · rw [updateFirst, if_pos hq, List.map_cons, List.map_cons,
        applySet_productID, hu, hq]
    · rw [updateFirst, if_neg hq, List.map_cons, List.map_cons, ih]

theorem any_key_of_map_eq {l1 l2 : List Product}
    (h : l1.map (fun p => p.productID) = l2.map (fun p => p.productID))
    (x : String) :
    l1.any (fun p => p.productID = x) = l2.any (fun p => p.productID = x) := by
  have h1 : ∀ l : List Product, l.any (fun p => p.productID = x)
      = (l.map (fun p => p.productID)).any (fun y => y = x) := by
    intro l
    induction l with
    | nil => rfl
    | cons a t iht =>
      show (decide (a.productID = x) || t.any fun p => decide (p.productID = x))
          = (decide (a.productID = x)
              || (t.map (fun p => p.productID)).any fun y => decide (y = x))
      rw [iht]
  rw [h1, h1, h]

theorem updateFirst_eq_map {ps : List Product} {k : String} {u : UpdateSet}
    (hnd : (ps.map (fun p => p.productID)).Nodup) :
    updateFirst ps k u
      = ps.map (fun p => if p.productID = k then applySet p u else p) := by
  induction ps with
  | nil => rfl
  | cons q t ih =>
    by_cases hq : q.productID = k
    · rw [updateFirst, if_pos hq, List.map_cons, if_pos hq]
      congr 1
      have hnone : ∀ p ∈ t, (if p.productID = k then applySet p u else p) = p := by
        intro p hp
        have hpk : p.productID ≠ k := by
          intro hEq
          have hmem : p.productID ∈ t.map (fun p => p.productID) :=
            List.mem_map.mpr ⟨p, hp, rfl⟩
          rw [hEq, ← hq] at hmem
          exact (List.nodup_cons.mp hnd).1 hmem
        rw [if_neg hpk]
      exact ((List.map_congr_left hnone).trans (List.map_id t)).symm
    · rw [updateFirst, if_neg hq, List.map_cons, if_neg hq,
        ih (List.nodup_cons.mp hnd).2]

/-- When every instruction's key is already present, the batched write is a
pointwise overwrite: no insertion happens and the product list keeps its
shape. -/
theorem applyOps_all_update :
    ∀ (ops : List UpdateOp),
      (ops.map (fun op => op.filterProductID)).Nodup →
      (∀ op ∈ ops, op.set.productID = op.filterProductID) →
      ∀ ps : List Product,
        (ps.map (fun p => p.productID)).Nodup →
        (∀ op ∈ ops, ps.any (fun p => p.productID = op.filterProductID) = true) →
        applyOps ps ops = ps.map (fun p =>
          match ops.find? (fun op => op.filterProductID = p.productID) with
          | some op => applySet p op.set
          | none => p) := by
  intro ops
  induction ops with
  | nil =>
    intro _ _ ps _ _
    show ps = _
    exact ((List.map_congr_left (fun p _ => rfl)).trans (List.map_id ps)).symm
  | cons op t ih =>
    intro hnd hset ps hpsnd hpres
    have hsetop := hset op (List.mem_cons_self op t)
    show applyOps (applyOp ps op) t = _
    rw [applyOp, if_pos (hpres op (List.mem_cons_self op t)),
      updateFirst_eq_map hpsnd]
    have hkeys : (ps.map (fun p =>
          if p.productID = op.filterProductID then applySet p op.set else p)).map
        (fun p => p.productID) = ps.map (fun p => p.productID) := by
      rw [List.map_map]
      apply List.map_congr_left
      intro p _
      by_cases hpk : p.productID = op.filterProductID
      · simp [Function.comp_apply, hpk, applySet_productID, hsetop]
      · simp [Function.comp_apply, hpk]
    rw [ih (List.nodup_cons.mp hnd).2
      (fun o ho => hset o (List.mem_cons_of_mem op ho)) _
      (by rw [hkeys]; exact hpsnd)
      (by intro o ho
          rw [any_key_of_map_eq hkeys]
          exact hpres o (List.mem_cons_of_mem op ho)),
      List.map_map]
    apply List.map_congr_left
    intro p hp
    by_cases hpk : p.productID = op.filterProductID
    · have htnone : t.find? (fun o => o.filterProductID = p.productID) = none := by
        apply List.find?_eq_none.mpr
        intro o ho
        simp only [decide_eq_true_eq]
        intro hEq
        have hmem : o.filterProductID ∈ t.map (fun o => o.filterProductID) :=
          List.mem_map.mpr ⟨o, ho, rfl⟩
        rw [hEq, hpk] at hmem
        exact (List.nodup_cons.mp hnd).1 hmem
      show (match t.find? (fun o => o.filterProductID
            = ((if p.productID = op.filterProductID then applySet p op.set else p)).productID) with
        | some o => applySet (if p.productID = op.filterProductID then applySet p op.set else p) o.set
        | none => (if p.productID = op.filterProductID then applySet p op.set else p)) = _
      rw [if_pos hpk, applySet_productID, hsetop, ← hpk, htnone,
        List.find?_cons_of_pos _ (by simp [hpk])]
    · have hkeep : (if p.productID = op.filterProductID then applySet p op.set else p) = p :=
        if_neg hpk
      show (match t.find? (fun o => o.filterProductID
            = ((if p.productID = op.filterProductID then applySet p op.set else p)).productID) with
        | some o => applySet (if p.productID = op.filterProductID then applySet p op.set else p) o.set
        | none => (if p.productID = op.filterProductID then applySet p op.set else p)) = _
      rw [hkeep, List.find?_cons_of_neg _ (by simpa using fun h => hpk h.symm)]

/-! ## Towards idempotence: grouping characterized by the chunk's rows -/

theorem head?_append_of_some {α : Type} {l l' : List α} {x : α}
    (h : l.head? = some x) : (l ++ l').head? = some x := by
  cases l with
  | nil => cases h
  | cons a t => exact h

theorem rowsFor_append (k : String) (x y : List Row) :
    rowsFor k (x ++ y) = rowsFor k x ++ rowsFor k y := by
  rw [rowsFor, rowsFor, rowsFor, List.filter_append]

theorem chunkRows_append (x y : List Row) :
    chunkRows (x ++ y) = chunkRows x ++ chunkRows y := by
  rw [chunkRows, chunkRows, chunkRows, List.filter_append]

/-- Invariant of the grouping fold, relative to the rows already consumed:
group keys are distinct, each group's representative row is the first valid
row of its product, each group's variant data is exactly its product's row
data in order, and a key has a group exactly when it has a valid row. -/
def groupInv (done : List Row) (acc : List Group) : Prop :=
  ((acc.map (fun g => g.key)).Nodup)
  ∧ (∀ g ∈ acc, (rowsFor g.key (chunkRows done)).head? = some g.row)
  ∧ (∀ g ∈ acc, g.variants.map varFields
      = (rowsFor g.key (chunkRows done)).map rowFields)
  ∧ (∀ k : String,
      acc.any (fun g => g.key = k) = true ↔ rowsFor k (chunkRows done) ≠ [])

theorem groupInv_nil : groupInv [] [] := by
  refine ⟨List.nodup_nil, ?_, ?_, ?_⟩
  · intro g hg; cases hg
  · intro g hg; cases hg
  · intro k
    constructor
    · intro h; cases h
    · intro h; exact absurd rfl h

theorem groupStep_skip {acc : List Group} {ctr : Nat} {r : Row}
    (hval : (r.productID = "" || r.itemID = "") = true) :
    groupStep acc ctr r = (acc, ctr) := by
  rw [groupStep, if_pos hval]

theorem groupStep_valid {acc : List Group} {ctr : Nat} {r : Row}
    (hval : (r.productID = "" || r.itemID = "") = false) :
    groupStep acc ctr r
      = ((if acc.any (fun g => g.key = r.productID) then acc
          else acc ++ [{ key := r.productID, row := r, variants := [] }]).map
            (fun g => if g.key = r.productID
              then { g with variants
                  := g.variants ++ [(constructVariant ctr r).1] }
              else g),
        (constructVariant ctr r).2) := by
  rw [groupStep, if_neg (by rw [hval]; exact Bool.false_ne_true)]

theorem groupStep_inv {done : List Row} {acc : List Group} (ctr : Nat) (r : Row)
    (hinv : groupInv done acc) :
    groupInv (done ++ [r]) (groupStep acc ctr r).1 := by
  obtain ⟨h1, h2, h3, h4⟩ := hinv
  by_cases hval : (r.productID = "" || r.itemID = "") = true
  · have hch : chunkRows (done ++ [r]) = chunkRows done := by
      rw [chunkRows_append]
      have hr : chunkRows [r] = [] := by
        rw [chunkRows, List.filter, validRow, hval]
        rfl
      rw [hr, List.append_nil]
    rw [groupStep_skip hval]
    exact ⟨h1, by rw [hch]; exact h2, by rw [hch]; exact h3,
      by intro k; rw [hch]; exact h4 k⟩
  · have hval' : (r.productID = "" || r.itemID = "") = false := by
      cases hb : (r.productID = "" || r.itemID = "") with
      | false => rfl
      | true => exact absurd hb hval
    have hch : chunkRows (done ++ [r]) = chunkRows done ++ [r] := by
      rw [chunkRows_append]
      have hr : chunkRows [r] = [r] := by
        rw [chunkRows, List.filter, validRow, hval']
        rfl
      rw [hr]
    have hrowsFor : ∀ k, rowsFor k (chunkRows (done ++ [r]))
        = rowsFor k (chunkRows done)
          ++ (if r.productID = k then [r] else []) := by
      intro k
      rw [hch, rowsFor_append]
      congr 1
      by_cases hk : r.productID = k
      · rw [if_pos hk, rowsFor, List.filter, decide_eq_true hk]
        rfl
      · rw [if_neg hk, rowsFor, List.filter, decide_eq_false hk]
        rfl
    rw [groupStep_valid hval']
    have hkey_pres : ∀ g : Group,
        ((if g.key = r.productID
          then { g with variants
              := g.variants ++ [(constructVariant ctr r).1] }
          else g)).key = g.key := by
      intro g
      by_cases hk : g.key = r.productID
      · rw [if_pos hk]
      · rw [if_neg hk]
    have hmem1 : ∀ g, g ∈ (if acc.any (fun g => g.key = r.productID) then acc
          else acc ++ [{ key := r.productID, row := r, variants := [] }]) →
        g ∈ acc
        ∨ (g = { key := r.productID, row := r, variants := [] }
            ∧ rowsFor r.productID (chunkRows done) = []) := by
      intro g hg
      by_cases ha : acc.any (fun g => g.key = r.productID) = true
      · rw [if_pos ha] at hg
        exact Or.inl hg
      · rw [if_neg ha] at hg
        rcases List.mem_append.mp hg with hg | hg
        · exact Or.inl hg
        · right
          refine ⟨List.mem_singleton.mp hg, ?_⟩
          by_cases hrows : rowsFor r.productID (chunkRows done) = []
          · exact hrows
          · exact absurd ((h4 r.productID).mpr hrows) ha
    have hkeys1 : ((if acc.any (fun g => g.key = r.productID) then acc
          else acc ++ [{ key := r.productID, row := r, variants := [] }]).map
            (fun g => g.key)).Nodup := by
      by_cases ha : acc.any (fun g => g.key = r.productID) = true
      · rw [if_pos ha]
        exact h1
      · rw [if_neg ha, List.map_append]
        apply h1.append (List.nodup_singleton _)
        intro a hamem hb
        simp only [List.map_cons, List.map_nil, List.mem_singleton] at hb
        subst hb
        obtain ⟨g, hg, hgk⟩ := List.mem_map.mp hamem
        have hcontra : acc.any (fun g => g.key = r.productID) = true :=
          List.any_eq_true.mpr ⟨g, hg, by simp [hgk]⟩
        exact ha hcontra
    have hany1 : ∀ k, (if acc.any (fun g => g.key = r.productID) then acc
          else acc ++ [{ key := r.productID, row := r, variants := [] }]).any
            (fun g => g.key = k)
        = (acc.any (fun g => g.key = k) || decide (r.productID = k)) := by
      intro k
      by_cases ha : acc.any (fun g => g.key = r.productID) = true
      · rw [if_pos ha]
        by_cases hk : r.productID = k
        · rw [decide_eq_true hk, Bool.or_true]
          rw [← hk]
          exact ha
        · rw [decide_eq_false hk, Bool.or_false]
      · rw [if_neg ha, List.any_append]
        congr 1
        show ([{ key := r.productID, row := r, variants := [] }] : List Group).any
            (fun g => g.key = k) = decide (r.productID = k)
        rw [List.any_cons]
        show (decide (r.productID = k) || false) = decide (r.productID = k)
        rw [Bool.or_false]
    have hany_map : ∀ (l : List Group) (k : String),
        (l.map (fun g => if g.key = r.productID
            then { g with variants
                := g.variants ++ [(constructVariant ctr r).1] }
            else g)).any (fun g => g.key = k) = l.any (fun g => g.key = k) := by
      intro l k
      induction l with
      | nil => rfl
      | cons a t iht =>
        rw [List.map_cons, List.any_cons, List.any_cons, hkey_pres a, iht]
    refine ⟨?_, ?_, ?_, ?_⟩
    · rw [List.map_map]
      have hcomp : ∀ g : Group, ((fun g => g.key) ∘ (fun g =>
          if g.key = r.productID
          then { g with variants
              := g.variants ++ [(constructVariant ctr r).1] }
          else g)) g = g.key := fun g => hkey_pres g
      rw [List.map_congr_left (fun g _ => hcomp g)]
      exact hkeys1
    · intro g' hg'
      obtain ⟨g0, hg0, rfl⟩ := List.mem_map.mp hg'
      rcases hmem1 g0 hg0 with hold | ⟨rfl, hempty⟩
      · by_cases hk : g0.key = r.productID
        · rw [if_pos hk]
          show (rowsFor g0.key (chunkRows (done ++ [r]))).head? = some g0.row
          rw [hrowsFor]
          exact head?_append_of_some (h2 g0 hold)
        · rw [if_neg hk]
          rw [hrowsFor, if_neg (fun h => hk h.symm), List.append_nil]
          exact h2 g0 hold
      · rw [if_pos rfl]
        show (rowsFor r.productID (chunkRows (done ++ [r]))).head? = some r
        rw [hrowsFor, if_pos rfl, hempty, List.nil_append]
        rfl
    · intro g' hg'
      obtain ⟨g0, hg0, rfl⟩ := List.mem_map.mp hg'
      rcases hmem1 g0 hg0 with hold | ⟨rfl, hempty⟩
      · by_cases hk : g0.key = r.productID
        · rw [if_pos hk]
          show (g0.variants ++ [(constructVariant ctr r).1]).map varFields
              = (rowsFor g0.key (chunkRows (done ++ [r]))).map rowFields
          rw [hrowsFor, List.map_append, List.map_append, h3 g0 hold, hk,
            if_pos rfl]
          rfl
        · rw [if_neg hk]
          rw [hrowsFor, if_neg (fun h => hk h.symm), List.append_nil]
          exact h3 g0 hold
      · rw [if_pos rfl]
        show ([] ++ [(constructVariant ctr r).1] : List Variant).map varFields
            = (rowsFor r.productID (chunkRows (done ++ [r]))).map rowFields
        rw [hrowsFor, if_pos rfl, hempty, List.nil_append, List.nil_append]
        rfl
    · intro k
      rw [hany_map, hany1 k, hrowsFor]
      by_cases hk : r.productID = k
      · rw [decide_eq_true hk, Bool.or_true, if_pos hk]
        constructor
        · intro _
          intro hcontra
          have := List.append_eq_nil.mp hcontra
          cases this.2
        · intro _
          rfl
      · rw [decide_eq_false hk, Bool.or_false, if_neg hk, List.append_nil]
        exact h4 k

theorem groupFold_inv :
    ∀ (rows done : List Row) (accp : List Group × Nat),
      groupInv done accp.1 →
      groupInv (done ++ rows)
        ((rows.foldl (fun p r => groupStep p.1 p.2 r) accp).1) := by
  intro rows
  induction rows with
  | nil =>
    intro done accp h
    simpa using h
  | cons r t ih =>
    intro done accp h
    rw [List.foldl_cons]
    have hrec := ih (done ++ [r]) (groupStep accp.1 accp.2 r)
      (groupStep_inv accp.2 r h)
    simpa using hrec

/-- The grouping of a chunk satisfies the invariant against the whole chunk,
for any id-counter value. -/
theorem groupChunk_inv (c : List Row) (ctr : Nat) :
    groupInv c (groupChunk c ctr).1 := by
  have h := groupFold_inv c [] ([], ctr) groupInv_nil
  simpa [groupChunk] using h

theorem groupChunk_keys_nodup (c : List Row) (ctr : Nat) :
    (((groupChunk c ctr).1).map (fun g => g.key)).Nodup :=
  (groupChunk_inv c ctr).1

theorem groupChunk_rep (c : List Row) (ctr : Nat) :
    ∀ g ∈ (groupChunk c ctr).1,
      (rowsFor g.key (chunkRows c)).head? = some g.row :=
  (groupChunk_inv c ctr).2.1

theorem groupChunk_fields (c : List Row) (ctr : Nat) :
    ∀ g ∈ (groupChunk c ctr).1,
      g.variants.map varFields = (rowsFor g.key (chunkRows c)).map rowFields :=
  (groupChunk_inv c ctr).2.2.1

theorem groupChunk_any (c : List Row) (ctr : Nat) :
    ∀ k : String, ((groupChunk c ctr).1.any (fun g => g.key = k) = true)
      ↔ rowsFor k (chunkRows c) ≠ [] :=
  (groupChunk_inv c ctr).2.2.2

/-! ## Towards idempotence: the reference-entity resolvers -/

theorem checkVendor_spec (st : PipeState) (s : String) :
    (∃ l, (checkVendor st s).2.store.vendors = st.store.vendors ++ l)
    ∧ vendorNamed (checkVendor st s).2.store.vendors s = true
    ∧ (checkVendor st s).1 = vidOf (checkVendor st s).2.store.vendors s
    ∧ (vendorNamed st.store.vendors s = true →
        (checkVendor st s).2.store.vendors = st.store.vendors)
    ∧ ((st.store.vendors.map (fun v => v.name)).Nodup →
        ((checkVendor st s).2.store.vendors.map (fun v => v.name)).Nodup)
    ∧ (checkVendor st s).2.store.manufacturers = st.store.manufacturers := by
  cases hf : st.store.vendors.find? (fun v => v.name = s) with
  | some v =>
    have hveq : (checkVendor st s).2.store.vendors = st.store.vendors := by
      simp [checkVendor, hf]
    have hres : (checkVendor st s).1 = v.vendorId := by
      simp [checkVendor, hf]
    refine ⟨⟨[], by rw [hveq, List.append_nil]⟩, ?_, ?_, fun _ => hveq,
      by rw [hveq]; exact id, by simp [checkVendor, hf]⟩
    · rw [hveq, vendorNamed, any_iff_find?_isSome, hf]
      rfl
    · rw [hveq, hres, vidOf, hf]
  | none =>
    have hveq : (checkVendor st s).2.store.vendors
        = st.store.vendors ++ [{ vendorId := st.ctr, siteSource := s, name := s }] := by
      simp [checkVendor, hf]
    have hres : (checkVendor st s).1 = st.ctr := by
      simp [checkVendor, hf]
    have hnotin : s ∉ st.store.vendors.map (fun v => v.name) := by
      intro hmem
      obtain ⟨v, hv, hvn⟩ := List.mem_map.mp hmem
      have : (st.store.vendors.find? (fun v => v.name = s)).isSome = true := by
        apply List.find?_isSome.mpr
        exact ⟨v, hv, by simp [hvn]⟩
      rw [hf] at this
      cases this
    refine ⟨⟨_, hveq⟩, ?_, ?_, ?_, ?_, by simp [checkVendor, hf]⟩
    · rw [hveq, vendorNamed, List.any_append]
      have : ([{ vendorId := st.ctr, siteSource := s, name := s }] : List Vendor).any
          (fun v => v.name = s) = true := by simp
      rw [this, Bool.or_true]
    · rw [hveq, hres, vidOf, List.find?_append, hf]
      rw [List.find?_cons_of_pos _ (by simp)]
      rfl
    · intro hnamed
      rw [vendorNamed, any_iff_find?_isSome, hf] at hnamed
      cases hnamed
    · intro hnd
      rw [hveq, List.map_append]
      apply hnd.append (List.nodup_singleton _)
      intro a ha hb
      simp only [List.map_cons, List.map_nil, List.mem_singleton] at hb
      subst hb
      exact hnotin ha

theorem ensureManufacturer_spec (st : PipeState) (mid mname : String) :
    (∃ l, (ensureManufacturer st mid mname).2.store.manufacturers
        = st.store.manufacturers ++ l)
    ∧ manuNamed (ensureManufacturer st mid mname).2.store.manufacturers mid = true
    ∧ (ensureManufacturer st mid mname).1 = mid
    ∧ (manuNamed st.store.manufacturers mid = true →
        (ensureManufacturer st mid mname).2.store.manufacturers
          = st.store.manufacturers)
    ∧ ((st.store.manufacturers.map (fun m => m.manufacturerId)).Nodup →
        ((ensureManufacturer st mid mname).2.store.manufacturers.map
          (fun m => m.manufacturerId)).Nodup)
    ∧ (ensureManufacturer st mid mname).2.store.vendors = st.store.vendors := by
  cases hf : st.store.manufacturers.find? (fun m => m.manufacturerId = mid) with
  | some m =>
    have hmeq : (ensureManufacturer st mid mname).2.store.manufacturers
        = st.store.manufacturers := by
      simp [ensureManufacturer, hf]
    have hres : (ensureManufacturer st mid mname).1 = mid := by
      have hm := List.find?_some hf
      simp only [decide_eq_true_eq] at hm
      simp [ensureManufacturer, hf, hm]
    refine ⟨⟨[], by rw [hmeq, List.append_nil]⟩, ?_, hres, fun _ => hmeq,
      by rw [hmeq]; exact id, by simp [ensureManufacturer, hf]⟩
    · rw [hmeq, manuNamed, any_iff_find?_isSome, hf]
      rfl
  | none =>
    have hmeq : (ensureManufacturer st mid mname).2.store.manufacturers
        = st.store.manufacturers ++ [{ manufacturerId := mid, name := mname }] := by
      simp [ensureManufacturer, hf]
    have hnotin : mid ∉ st.store.manufacturers.map (fun m => m.manufacturerId) := by
      intro hmem
      obtain ⟨m, hm, hmn⟩ := List.mem_map.mp hmem
      have : (st.store.manufacturers.find? (fun m => m.manufacturerId = mid)).isSome
          = true := by
        apply List.find?_isSome.mpr
        exact ⟨m, hm, by simp [hmn]⟩
      rw [hf] at this
      cases this
    refine ⟨⟨_, hmeq⟩, ?_, by simp [ensureManufacturer, hf], ?_, ?_,
      by simp [ensureManufacturer, hf]⟩
    · rw [hmeq, manuNamed, List.any_append]
      have : ([{ manufacturerId := mid, name := mname }] : List Manufacturer).any
          (fun m => m.manufacturerId = mid) = true := by simp
      rw [this, Bool.or_true]
    · intro hnamed
      rw [manuNamed, any_iff_find?_isSome, hf] at hnamed
      cases hnamed
    · intro hnd
      rw [hmeq, List.map_append]
      apply hnd.append (List.nodup_singleton _)
      intro a ha hb
      simp only [List.map_cons, List.map_nil, List.mem_singleton] at hb
      subst hb
      exact hnotin ha

/-! ## Towards idempotence: the emitted instruction list in full -/

theorem buildOps_shift (snapshot : List Product) :
    ∀ (gs : List Group) (acc : List UpdateOp) (st : PipeState),
      gs.foldl (fun acc g =>
          let r := buildOp acc.2 snapshot g
          (acc.1 ++ [r.1], r.2)) (acc, st)
        = (acc ++ (buildOps st snapshot gs).1, (buildOps st snapshot gs).2) := by
  intro gs
  induction gs with
  | nil =>
    intro acc st
    show (acc, st) = (acc ++ [], st)
    rw [List.append_nil]
  | cons g t ih =>
    intro acc st
    rw [List.foldl_cons]
    show t.foldl _ (acc ++ [(buildOp st snapshot g).1], (buildOp st snapshot g).2) = _
    rw [ih]
    have hrhs : (buildOps st snapshot (g :: t))
        = t.foldl (fun acc g =>
            let r := buildOp acc.2 snapshot g
            (acc.1 ++ [r.1], r.2)) ([(buildOp st snapshot g).1], (buildOp st snapshot g).2) := by
      rw [buildOps, List.foldl_cons]
      rfl
    rw [hrhs, ih]
    rw [List.append_assoc]

theorem buildOps_cons (st : PipeState) (snapshot : List Product) (g : Group)
    (gs : List Group) :
    buildOps st snapshot (g :: gs)
      = ((buildOp st snapshot g).1
            :: (buildOps (buildOp st snapshot g).2 snapshot gs).1,
         (buildOps (buildOp st snapshot g).2 snapshot gs).2) := by
  rw [buildOps, List.foldl_cons]
  show gs.foldl _ ([] ++ [(buildOp st snapshot g).1], (buildOp st snapshot g).2) = _
  rw [List.nil_append, buildOps_shift]
  rfl

/-- What one emitted instruction looks like, stated against a vendor and
manufacturer list that extends the state at emission time: filter and `$set`
target the group key, the group's reference entities exist, and the payload
is the merge update (existing product) or the fresh document (new product). -/
def OpSpec (snapshot : List Product) (vf : List Vendor) (mf : List Manufacturer)
    (g : Group) (op : UpdateOp) : Prop :=
  op.filterProductID = g.key
  ∧ op.set.productID = g.key
  ∧ vendorNamed vf g.row.siteSource = true
  ∧ manuNamed mf g.row.manufacturerID = true
  ∧ ((∃ p, snapshot.find? (fun q => q.productID = g.key) = some p
        ∧ op.setOnInsertDocId = none
        ∧ op.set = toUpdateSet (ownedUpdate p g.row
            (vidOf vf g.row.siteSource) g.row.manufacturerID
            (mergeVariants p.variants g.variants)))
    ∨ (snapshot.find? (fun q => q.productID = g.key) = none
        ∧ op.setOnInsertDocId.isSome = true
        ∧ op.set.name = g.row.productName
        ∧ op.set.description = jsOr g.row.productDescription ""
        ∧ op.set.vendorId = vidOf vf g.row.siteSource
        ∧ op.set.manufacturerId = g.row.manufacturerID
        ∧ op.set.availabilityText = jsOr g.row.availabilityText "available"
        ∧ op.set.images = parseImages g.row
        ∧ op.set.variants = g.variants))

theorem OpSpec_mono {snapshot : List Product} {vf : List Vendor}
    {mf : List Manufacturer} {g : Group} {op : UpdateOp}
    (h : OpSpec snapshot vf mf g op) (lv : List Vendor)
    (lm : List Manufacturer) : OpSpec snapshot (vf ++ lv) (mf ++ lm) g op := by
  obtain ⟨hk, hsk, hv, hm, hbr⟩ := h
  refine ⟨hk, hsk, vendorNamed_append _ _ _ hv, manuNamed_append _ _ _ hm, ?_⟩
  rcases hbr with ⟨p, hf, hins, hset⟩ | ⟨hf, hins, hn, hd, hvid, hmid, hav, him, hvar⟩
  · left
    exact ⟨p, hf, hins, by rw [vidOf_append hv lv]; exact hset⟩
  · right
    exact ⟨hf, hins, hn, hd, by rw [vidOf_append hv lv]; exact hvid, hmid,
      hav, him, hvar⟩

theorem toUpdateSet_docId (p : Product) (d : Option Nat) :
    toUpdateSet { p with docId := d } = toUpdateSet p := rfl

theorem newProductDoc_description (g : Group) (vid : Nat) (mid : String)
    (ctr : Nat) :
    (newProductDoc g vid mid ctr).1.description
      = jsOr g.row.productDescription "" := by
  by_cases h : (jsOr g.row.productDescription "" = ""
      || jsTrim (jsOr g.row.productDescription "") = "") = true
  · simp [newProductDoc, h, enhanceDescription]
  · simp [newProductDoc, h]

/-- Per-instruction specification of `buildOp`, against its own output
state's reference lists. -/
theorem buildOp_opSpec (st : PipeState) (snapshot : List Product) (g : Group) :
    OpSpec snapshot (buildOp st snapshot g).2.store.vendors
      (buildOp st snapshot g).2.store.manufacturers g (buildOp st snapshot g).1 := by
  have hcv := checkVendor_spec st g.row.siteSource
  have hem := ensureManufacturer_spec (checkVendor st g.row.siteSource).2
    g.row.manufacturerID g.row.manufacturerName
  have hvst : (buildOp st snapshot g).2.store.vendors
      = (checkVendor st g.row.siteSource).2.store.vendors := by
    cases hf : snapshot.find? (fun q => q.productID = g.key) with
    | some p =>
      cases hd : p.docId with
      | some d => simp [buildOp, hf, ownedUpdate, hd, hem.2.2.2.2.2]
      | none => simp [buildOp, hf, ownedUpdate, hd, hem.2.2.2.2.2]
    | none => simp [buildOp, hf, newProductDoc, hem.2.2.2.2.2]
  have hmst : (buildOp st snapshot g).2.store.manufacturers
      = (ensureManufacturer (checkVendor st g.row.siteSource).2
          g.row.manufacturerID g.row.manufacturerName).2.store.manufacturers := by
    cases hf : snapshot.find? (fun q => q.productID = g.key) with
    | some p =>
      cases hd : p.docId with
      | some d => simp [buildOp, hf, ownedUpdate, hd]
      | none => simp [buildOp, hf, ownedUpdate, hd]
    | none => simp [buildOp, hf, newProductDoc]
  refine ⟨buildOp_filter_key st snapshot g, buildOp_set_key st snapshot g,
    by rw [hvst]; exact hcv.2.1, by rw [hmst]; exact hem.2.1, ?_⟩
  have hvid : (checkVendor st g.row.siteSource).1
      = vidOf (buildOp st snapshot g).2.store.vendors g.row.siteSource := by
    rw [hvst]
    exact hcv.2.2.1
  have hmid : (ensureManufacturer (checkVendor st g.row.siteSource).2
      g.row.manufacturerID g.row.manufacturerName).1 = g.row.manufacturerID :=
    hem.2.2.1
  cases hf : snapshot.find? (fun q => q.productID = g.key) with
  | some p =>
    left
    refine ⟨p, rfl, ?_, ?_⟩
    · cases hd : p.docId with
      | some d => simp [buildOp, hf, ownedUpdate, hd]
      | none => simp [buildOp, hf, ownedUpdate, hd]
    · have hset : (buildOp st snapshot g).1.set
          = toUpdateSet (ownedUpdate p g.row
              (checkVendor st g.row.siteSource).1
              (ensureManufacturer (checkVendor st g.row.siteSource).2
                g.row.manufacturerID g.row.manufacturerName).1
              (mergeVariants p.variants g.variants)) := by
        cases hd : p.docId with
        | some d => simp [buildOp, hf, ownedUpdate, hd]
        | none =>
          have hod : (ownedUpdate p g.row (checkVendor st g.row.siteSource).1
              (ensureManufacturer (checkVendor st g.row.siteSource).2
                g.row.manufacturerID g.row.manufacturerName).1
              (mergeVariants p.variants g.variants)).docId = p.docId := rfl
          simp only [buildOp, hf, hod, hd]
          rfl
      rw [hset, hvid, hmid]
  | none =>
    right
    have hins : (buildOp st snapshot g).1.setOnInsertDocId.isSome = true := by
      rw [buildOp_setOnInsert, hf]
      rfl
    have hset : (buildOp st snapshot g).1.set
        = toUpdateSet (newProductDoc g
            (checkVendor st g.row.siteSource).1
            (ensureManufacturer (checkVendor st g.row.siteSource).2
              g.row.manufacturerID g.row.manufacturerName).1
            (ensureManufacturer (checkVendor st g.row.siteSource).2
              g.row.manufacturerID g.row.manufacturerName).2.ctr).1 := by
      have hnd : (newProductDoc g (checkVendor st g.row.siteSource).1
          (ensureManufacturer (checkVendor st g.row.siteSource).2
            g.row.manufacturerID g.row.manufacturerName).1
          (ensureManufacturer (checkVendor st g.row.siteSource).2
            g.row.manufacturerID g.row.manufacturerName).2.ctr).1.docId
          = some (ensureManufacturer (checkVendor st g.row.siteSource).2
              g.row.manufacturerID g.row.manufacturerName).2.ctr := rfl
      simp only [buildOp, hf, hnd]
    refine ⟨rfl, hins, ?_, ?_, ?_, ?_, ?_, ?_, ?_⟩
    · rw [hset]
      rfl
    · rw [hset]
      exact newProductDoc_description g (checkVendor st g.row.siteSource).1
        (ensureManufacturer (checkVendor st g.row.siteSource).2
          g.row.manufacturerID g.row.manufacturerName).1
        (ensureManufacturer (checkVendor st g.row.siteSource).2
          g.row.manufacturerID g.row.manufacturerName).2.ctr
    · rw [hset]
      exact hvid
    · rw [hset]
      exact hmid
    · rw [hset]
      rfl
    · rw [hset]
      rfl
    · rw [hset]
      rfl

theorem buildOp_vendors (st : PipeState) (snapshot : List Product) (g : Group) :
    (buildOp st snapshot g).2.store.vendors
      = (checkVendor st g.row.siteSource).2.store.vendors := by
  have hem := ensureManufacturer_spec (checkVendor st g.row.siteSource).2
    g.row.manufacturerID g.row.manufacturerName
  cases hf : snapshot.find? (fun q => q.productID = g.key) with
  | some p =>
    cases hd : p.docId with
    | some d => simp [buildOp, hf, ownedUpdate, hd, hem.2.2.2.2.2]
    | none => simp [buildOp, hf, ownedUpdate, hd, hem.2.2.2.2.2]
  | none => simp [buildOp, hf, newProductDoc, hem.2.2.2.2.2]

theorem buildOp_manufacturers (st : PipeState) (snapshot : List Product)
    (g : Group) :
    (buildOp st snapshot g).2.store.manufacturers
      = (ensureManufacturer (checkVendor st g.row.siteSource).2
          g.row.manufacturerID g.row.manufacturerName).2.store.manufacturers := by
  cases hf : snapshot.find? (fun q => q.productID = g.key) with
  | some p =>
    cases hd : p.docId with
    | some d => simp [buildOp, hf, ownedUpdate, hd]
    | none => simp [buildOp, hf, ownedUpdate, hd]
  | none => simp [buildOp, hf, newProductDoc]

theorem checkVendor_manufacturers_eq (st : PipeState) (s : String) :
    (checkVendor st s).2.store.manufacturers = st.store.manufacturers :=
  (checkVendor_spec st s).2.2.2.2.2

/-- Full specification of the chunk's instruction emission: reference lists
only grow, their key-distinctness is preserved, and the instruction list is
in one-to-one `OpSpec` correspondence with the chunk's groups, stated against
the final reference lists. -/
theorem buildOps_spec :
    ∀ (gs : List Group) (st : PipeState) (snapshot : List Product),
      (∃ l, (buildOps st snapshot gs).2.store.vendors = st.store.vendors ++ l)
      ∧ (∃ l, (buildOps st snapshot gs).2.store.manufacturers
          = st.store.manufacturers ++ l)
      ∧ ((st.store.vendors.map (fun v => v.name)).Nodup →
          ((buildOps st snapshot gs).2.store.vendors.map (fun v => v.name)).Nodup)
      ∧ ((st.store.manufacturers.map (fun m => m.manufacturerId)).Nodup →
          ((buildOps st snapshot gs).2.store.manufacturers.map
            (fun m => m.manufacturerId)).Nodup)
      ∧ List.Forall₂ (OpSpec snapshot (buildOps st snapshot gs).2.store.vendors
          (buildOps st snapshot gs).2.store.manufacturers) gs
          (buildOps st snapshot gs).1 := by
  intro gs
  induction gs with
  | nil =>
    intro st snapshot
    exact ⟨⟨[], (List.append_nil _).symm⟩, ⟨[], (List.append_nil _).symm⟩,
      id, id, List.Forall₂.nil⟩
  | cons g t ih =>
    intro st snapshot
    have hcv := checkVendor_spec st g.row.siteSource
    have hem := ensureManufacturer_spec (checkVendor st g.row.siteSource).2
      g.row.manufacturerID g.row.manufacturerName
    obtain ⟨⟨lv, hlv⟩, ⟨lm, hlm⟩, hvn, hmn, hfa⟩ :=
      ih (buildOp st snapshot g).2 snapshot
    obtain ⟨lv0, hlv0⟩ := hcv.1
    obtain ⟨lm0, hlm0⟩ := hem.1
    have hbv : (buildOp st snapshot g).2.store.vendors
        = st.store.vendors ++ lv0 := by
      rw [buildOp_vendors, hlv0]
    have hbm : (buildOp st snapshot g).2.store.manufacturers
        = st.store.manufacturers ++ lm0 := by
      rw [buildOp_manufacturers, hlm0, checkVendor_manufacturers_eq]
    rw [buildOps_cons]
    refine ⟨?_, ?_, ?_, ?_, ?_⟩
    · exact ⟨lv0 ++ lv, by
        show (buildOps (buildOp st snapshot g).2 snapshot t).2.store.vendors = _
        rw [hlv, hbv, List.append_assoc]⟩
    · exact ⟨lm0 ++ lm, by
        show (buildOps (buildOp st snapshot g).2 snapshot t).2.store.manufacturers = _
        rw [hlm, hbm, List.append_assoc]⟩
    · intro hnd
      show ((buildOps (buildOp st snapshot g).2 snapshot t).2.store.vendors.map
        (fun v => v.name)).Nodup
      apply hvn
      rw [buildOp_vendors]
      exact hcv.2.2.2.2.1 hnd
    · intro hnd
      show ((buildOps (buildOp st snapshot g).2 snapshot t).2.store.manufacturers.map
        (fun m => m.manufacturerId)).Nodup
      apply hmn
      rw [buildOp_manufacturers]
      apply hem.2.2.2.2.1
      rw [checkVendor_manufacturers_eq]
      exact hnd
    · show List.Forall₂ _ (g :: t) ((buildOp st snapshot g).1
          :: (buildOps (buildOp st snapshot g).2 snapshot t).1)
      apply List.Forall₂.cons
      · have h0 := buildOp_opSpec st snapshot g
        have hvf : (buildOps (buildOp st snapshot g).2 snapshot t).2.store.vendors
            = (buildOp st snapshot g).2.store.vendors ++ lv := hlv
        have hmf : (buildOps (buildOp st snapshot g).2 snapshot t).2.store.manufacturers
            = (buildOp st snapshot g).2.store.manufacturers ++ lm := hlm
        rw [hvf, hmf]
        exact OpSpec_mono h0 lv lm
      · exact hfa

/-- When every group's vendor and manufacturer already exist, emission
creates no reference entity. -/
theorem buildOps_no_create :
    ∀ (gs : List Group) (st : PipeState) (snapshot : List Product),
      (∀ g ∈ gs, vendorNamed st.store.vendors g.row.siteSource = true) →
      (∀ g ∈ gs, manuNamed st.store.manufacturers g.row.manufacturerID = true) →
      (buildOps st snapshot gs).2.store.vendors = st.store.vendors
      ∧ (buildOps st snapshot gs).2.store.manufacturers
          = st.store.manufacturers := by
  intro gs
  induction gs with
  | nil => intro st snapshot _ _; exact ⟨rfl, rfl⟩
  | cons g t ih =>
    intro st snapshot hv hm
    have hcv := checkVendor_spec st g.row.siteSource
    have hem := ensureManufacturer_spec (checkVendor st g.row.siteSource).2
      g.row.manufacturerID g.row.manufacturerName
    have hbv : (buildOp st snapshot g).2.store.vendors = st.store.vendors := by
      rw [buildOp_vendors]
      exact hcv.2.2.2.1 (hv g (List.mem_cons_self g t))
    have hbm : (buildOp st snapshot g).2.store.manufacturers
        = st.store.manufacturers := by
      rw [buildOp_manufacturers]
      rw [hem.2.2.2.1]
      · exact checkVendor_manufacturers_eq st g.row.siteSource
      · rw [checkVendor_manufacturers_eq]
        exact hm g (List.mem_cons_self g t)
    rw [buildOps_cons]
    have hrec := ih (buildOp st snapshot g).2 snapshot
      (by intro g' hg'
          rw [hbv]
          exact hv g' (List.mem_cons_of_mem g hg'))
      (by intro g' hg'
          rw [hbm]
          exact hm g' (List.mem_cons_of_mem g hg'))
    exact ⟨by
        show (buildOps (buildOp st snapshot g).2 snapshot t).2.store.vendors = _
        rw [hrec.1, hbv],
      by
        show (buildOps (buildOp st snapshot g).2 snapshot t).2.store.manufacturers = _
        rw [hrec.2, hbm]⟩

/-- `processChunk` leaves the reference lists exactly as emission left
them. -/
theorem processChunk_refs (st : PipeState) (chunk : List Row) :
    (processChunk st chunk).store.vendors
      = (buildOps { st with ctr := (groupChunk chunk st.ctr).2 }
          st.store.products (groupChunk chunk st.ctr).1).2.store.vendors
    ∧ (processChunk st chunk).store.manufacturers
      = (buildOps { st with ctr := (groupChunk chunk st.ctr).2 }
          st.store.products (groupChunk chunk st.ctr).1).2.store.manufacturers :=
  ⟨rfl, rfl⟩

theorem forall2_map_key {snapshot : List Product} {vf : List Vendor}
    {mf : List Manufacturer} :
    ∀ {gs : List Group} {ops : List UpdateOp},
      List.Forall₂ (OpSpec snapshot vf mf) gs ops →
      ops.map (fun op => op.filterProductID) = gs.map (fun g => g.key) := by
  intro gs ops h
  induction h with
  | nil => rfl
  | cons hR _ ih =>
    rw [List.map_cons, List.map_cons, ih, hR.1]

theorem forall2_mem_left {R : Group → UpdateOp → Prop} :
    ∀ {gs : List Group} {ops : List UpdateOp},
      List.Forall₂ R gs ops → ∀ g ∈ gs, ∃ op ∈ ops, R g op := by
  intro gs ops h
  induction h with
  | nil => intro g hg; cases hg
  | cons hR _ ih =>
    intro g hg
    rcases List.mem_cons.mp hg with rfl | hg'
    · exact ⟨_, List.mem_cons_self _ _, hR⟩
    · obtain ⟨op, hop, hrop⟩ := ih g hg'
      exact ⟨op, List.mem_cons_of_mem _ hop, hrop⟩

theorem forall2_find {snapshot : List Product} {vf : List Vendor}
    {mf : List Manufacturer} :
    ∀ {gs : List Group} {ops : List UpdateOp},
      List.Forall₂ (OpSpec snapshot vf mf) gs ops →
      ∀ k : String,
        (gs.find? (fun g => g.key = k) = none
          ∧ ops.find? (fun op => op.filterProductID = k) = none)
        ∨ (∃ g op, gs.find? (fun g => g.key = k) = some g
            ∧ ops.find? (fun op => op.filterProductID = k) = some op
            ∧ OpSpec snapshot vf mf g op) := by
  intro gs ops h k
  induction h with
  | nil => exact Or.inl ⟨rfl, rfl⟩
  | @cons a b l1 l2 hR hrest ih =>
    by_cases hk : a.key = k
    · right
      exact ⟨a, b, List.find?_cons_of_pos _ (by simp [hk]),
        List.find?_cons_of_pos _ (by simp [hR.1, hk]), hR⟩
    · have hbk : b.filterProductID ≠ k := by
        rw [hR.1]
        exact hk
      rcases ih with ⟨h1, h2⟩ | ⟨g, op, h1, h2, h3⟩
      · left
        exact ⟨by rw [List.find?_cons_of_neg _ (by simpa using hk)]; exact h1,
          by rw [List.find?_cons_of_neg _ (by simpa using hbk)]; exact h2⟩
      · right
        exact ⟨g, op, by rw [List.find?_cons_of_neg _ (by simpa using hk)]; exact h1,
          by rw [List.find?_cons_of_neg _ (by simpa using hbk)]; exact h2, h3⟩

theorem allRows_append (x y : List (List Row)) :
    allRows (x ++ y) = allRows x ++ allRows y := by
  rw [allRows, allRows, allRows, List.flatten_append, List.filter_append]

theorem allRows_snoc (x : List (List Row)) (c : List Row) :
    allRows (x ++ [c]) = allRows x ++ chunkRows c := by
  rw [allRows_append]
  congr 1
  rw [allRows, chunkRows, List.flatten_cons, List.flatten_nil, List.append_nil]

theorem skus_eq_fields (l : List Variant) :
    skus l = (l.map varFields).map Prod.fst := by
  rw [skus, List.map_map]
  apply List.map_congr_left
  intro v _
  rfl

theorem rowSkus_eq_fields (rows : List Row) :
    rows.map skuOfRow = (rows.map rowFields).map Prod.fst := by
  rw [List.map_map]
  apply List.map_congr_left
  intro r _
  rfl

theorem head?_some_ne_nil {α : Type} {l : List α} {x : α}
    (h : l.head? = some x) : l ≠ [] := by
  intro hl
  rw [hl] at h
  cases h

/-- The batched write preserves distinctness of product keys. -/
theorem applyOps_keys_nodup :
    ∀ (ops : List UpdateOp),
      (∀ op ∈ ops, op.set.productID = op.filterProductID) →
      ∀ ps : List Product,
        (ps.map (fun p => p.productID)).Nodup →
        ((applyOps ps ops).map (fun p => p.productID)).Nodup := by
  intro ops
  induction ops with
  | nil => intro _ ps hnd; exact hnd
  | cons op t ih =>
    intro hset ps hnd
    show ((applyOps (applyOp ps op) t).map (fun p => p.productID)).Nodup
    apply ih (fun o ho => hset o (List.mem_cons_of_mem op ho))
    rw [applyOp]
    by_cases hany : ps.any (fun q => q.productID = op.filterProductID) = true
    · rw [if_pos hany,
        updateFirst_keys (hset op (List.mem_cons_self op t))]
      exact hnd
    · rw [if_neg hany, List.map_append]
      apply hnd.append
      · simp [insertOfOp_productID]
      · intro a ha hb
        simp only [List.map_cons, List.map_nil, List.mem_singleton,
          insertOfOp_productID, hset op (List.mem_cons_self op t)] at hb
        subst hb
        have : ps.any (fun q => q.productID = op.filterProductID) = true := by
          apply List.any_eq_true.mpr
          obtain ⟨q, hq, hq2⟩ := List.mem_map.mp ha
          exact ⟨q, hq, by simp [hq2]⟩
        exact hany this

/-! ## The run-level invariant of the first run -/

theorem disjoint_skus_any_false {es vs : List Variant}
    (hdisj : List.Disjoint (skus es) (skus vs)) :
    ∀ v ∈ vs, es.any (fun e => e.sku = v.sku) = false := by
  intro v hv
  cases ha : es.any (fun e => e.sku = v.sku) with
  | false => rfl
  | true =>
    exfalso
    obtain ⟨e, he, hesku⟩ := List.any_eq_true.mp ha
    rw [decide_eq_true_eq] at hesku
    have h1 : e.sku ∈ skus es := by
      rw [skus]
      exact List.mem_map.mpr ⟨e, he, rfl⟩
    have h2 : v.sku ∈ skus vs := by
      rw [skus]
      exact List.mem_map.mpr ⟨v, hv, rfl⟩
    rw [hesku] at h1
    exact hdisj h1 h2

/-- Invariant carried by the first run after a prefix of chunks: reference
entities and products are key-distinct, every stored product's variant data
is exactly its rows' data in file order, every product with a row exists, and
every chunk representative's vendor and manufacturer exist. -/
def runInv (pcs : List (List Row)) (st : PipeState) : Prop :=
  ((st.store.vendors.map (fun v => v.name)).Nodup)
  ∧ ((st.store.manufacturers.map (fun m => m.manufacturerId)).Nodup)
  ∧ ((st.store.products.map (fun p => p.productID)).Nodup)
  ∧ (∀ p ∈ st.store.products,
      p.variants.map varFields
        = (rowsFor p.productID (allRows pcs)).map rowFields)
  ∧ (∀ k : String, rowsFor k (allRows pcs) ≠ [] →
      (findProduct st.store.products k).isSome = true)
  ∧ (∀ c ∈ pcs, ∀ (k : String) (r : Row),
      (rowsFor k (chunkRows c)).head? = some r →
      vendorNamed st.store.vendors r.siteSource = true
      ∧ manuNamed st.store.manufacturers r.manufacturerID = true)

theorem runInv_init : runInv [] initState := by
  refine ⟨List.nodup_nil, List.nodup_nil, List.nodup_nil, ?_, ?_, ?_⟩
  · intro p hp
    cases hp
  · intro k hk
    exact absurd rfl hk
  · intro c hc
    cases hc

/-- One chunk preserves the run invariant, extending the prefix; reference
lists only grow. -/
theorem processChunk_runInv {pcs : List (List Row)} {c : List Row}
    {st : PipeState}
    (hH : ∀ k, ((rowsFor k (allRows (pcs ++ [c]))).map skuOfRow).Nodup)
    (hinv : runInv pcs st) :
    runInv (pcs ++ [c]) (processChunk st c)
    ∧ (∃ l, (processChunk st c).store.vendors = st.store.vendors ++ l)
    ∧ (∃ l, (processChunk st c).store.manufacturers
        = st.store.manufacturers ++ l) := by
  obtain ⟨hv, hm, hp, hfieldsI, hpresI, hrepI⟩ := hinv
  obtain ⟨⟨lv, hlv⟩, ⟨lm, hlm⟩, hvn, hmn, hfa⟩ :=
    buildOps_spec (groupChunk c st.ctr).1
      { st with ctr := (groupChunk c st.ctr).2 } st.store.products
  have hveq : (processChunk st c).store.vendors = st.store.vendors ++ lv := by
    rw [(processChunk_refs st c).1]
    exact hlv
  have hmeq : (processChunk st c).store.manufacturers
      = st.store.manufacturers ++ lm := by
    rw [(processChunk_refs st c).2]
    exact hlm
  have hops_keys : ((chunkOps st c).map (fun op => op.filterProductID)).Nodup := by
    show ((buildOps { st with ctr := (groupChunk c st.ctr).2 }
      st.store.products (groupChunk c st.ctr).1).1.map
        (fun op => op.filterProductID)).Nodup
    rw [forall2_map_key hfa]
    exact groupChunk_keys_nodup c st.ctr
  have hset := chunkOps_set_eq_filter st c
  have hprod := processChunk_products st c
  have hfind := applyOps_find (chunkOps st c) hops_keys hset st.store.products
  have hpnd : ((processChunk st c).store.products.map
      (fun p => p.productID)).Nodup := by
    rw [hprod]
    exact applyOps_keys_nodup (chunkOps st c) hset st.store.products hp
  have hrows_split : ∀ k, rowsFor k (allRows (pcs ++ [c]))
      = rowsFor k (allRows pcs) ++ rowsFor k (chunkRows c) := by
    intro k
    rw [allRows_snoc, rowsFor_append]
  have hH' : ∀ k, ((rowsFor k (allRows pcs)).map skuOfRow).Nodup
      ∧ ((rowsFor k (chunkRows c)).map skuOfRow).Nodup
      ∧ List.Disjoint ((rowsFor k (allRows pcs)).map skuOfRow)
          ((rowsFor k (chunkRows c)).map skuOfRow) := by
    intro k
    have h0 := hH k
    rw [hrows_split, List.map_append] at h0
    exact List.nodup_append.mp h0
  have hchunk_empty : ∀ k : String,
      (groupChunk c st.ctr).1.find? (fun g => g.key = k) = none →
      rowsFor k (chunkRows c) = [] := by
    intro k hnone
    by_cases hr : rowsFor k (chunkRows c) = []
    · exact hr
    · have hany := (groupChunk_any c st.ctr k).mpr hr
      rw [any_iff_find?_isSome, hnone] at hany
      cases hany
  refine ⟨⟨?_, ?_, hpnd, ?_, ?_, ?_⟩, ⟨lv, hveq⟩, ⟨lm, hmeq⟩⟩
  · rw [hveq]
    have h0 := hvn hv
    rw [hlv] at h0
    exact h0
  · rw [hmeq]
    have h0 := hmn hm
    rw [hlm] at h0
    exact h0
  · -- stored variant data after the chunk
    intro p' hp'
    have hself : findProduct (processChunk st c).store.products p'.productID
        = some p' := findProduct_self_of_nodup hpnd hp'
    rw [hprod, hfind p'.productID] at hself
    rcases forall2_find hfa p'.productID with ⟨hg1, hg2⟩ | ⟨g, op, hg1, hg2, hgspec⟩
    · -- no instruction for this key: untouched product, no chunk rows
      have hg2' : (chunkOps st c).find? (fun op => op.filterProductID
          = p'.productID) = none := hg2
      rw [hg2'] at hself
      have hrc : rowsFor p'.productID (chunkRows c) = [] := hchunk_empty _ hg1
      cases hsnap : findProduct st.store.products p'.productID with
      | none =>
        rw [hsnap] at hself
        cases hself
      | some p =>
        rw [hsnap] at hself
        have hpp : p' = p := (Option.some.inj hself).symm
        subst hpp
        rw [hrows_split, hrc, List.append_nil]
        exact hfieldsI p' (by
          rw [findProduct] at hsnap
          exact List.mem_of_find?_eq_some hsnap)
    · have hg2' : (chunkOps st c).find? (fun op => op.filterProductID
          = p'.productID) = some op := hg2
      rw [hg2'] at hself
      have hkk : g.key = p'.productID := by
        have h1 := List.find?_some hg1
        simpa using h1
      have hgmem : g ∈ (groupChunk c st.ctr).1 := List.mem_of_find?_eq_some hg1
      have hvsf : g.variants.map varFields
          = (rowsFor p'.productID (chunkRows c)).map rowFields := by
        rw [← hkk]
        exact groupChunk_fields c st.ctr g hgmem
      rcases hgspec.2.2.2.2 with ⟨p, hfp, _, hsetEq⟩ | ⟨hfp, _, _, _, _, _, _, _, hvar⟩
      · -- merge path
        have hfp' : findProduct st.store.products p'.productID = some p := by
          rw [findProduct, ← hkk]
          exact hfp
        rw [hfp'] at hself
        have hpp : p' = applySet p op.set := (Option.some.inj hself).symm
        have hpvar : p'.variants = mergeVariants p.variants g.variants := by
          rw [hpp, hsetEq]
          rfl
        have hesf : p.variants.map varFields
            = (rowsFor p'.productID (allRows pcs)).map rowFields := by
          have hpmem : p ∈ st.store.products := by
            rw [findProduct] at hfp'
            exact List.mem_of_find?_eq_some hfp'
          have hpid : p.productID = p'.productID := by
            rw [findProduct] at hfp'
            have := List.find?_some hfp'
            simpa using this
          rw [← hpid]
          exact hfieldsI p hpmem
        have hskus_es : skus p.variants
            = (rowsFor p'.productID (allRows pcs)).map skuOfRow := by
          rw [skus_eq_fields, hesf, ← rowSkus_eq_fields]
        have hskus_vs : skus g.variants
            = (rowsFor p'.productID (chunkRows c)).map skuOfRow := by
          rw [skus_eq_fields, hvsf, ← rowSkus_eq_fields]
        obtain ⟨hnd1, hnd2, hdisj⟩ := hH' p'.productID
        have hmerge : mergeVariants p.variants g.variants
            = p.variants ++ g.variants := by
          apply mergeVariants_append
          · rw [hskus_es]
            exact hnd1
          · rw [hskus_vs]
            exact hnd2
          · apply disjoint_skus_any_false
            rw [hskus_es, hskus_vs]
            exact hdisj
        rw [hpvar, hmerge, List.map_append, hesf, hvsf, hrows_split,
          List.map_append]
      · -- creation path
        have hfp' : findProduct st.store.products p'.productID = none := by
          rw [findProduct, ← hkk]
          exact hfp
        rw [hfp'] at hself
        have hpp : p' = insertOfOp op := (Option.some.inj hself).symm
        have hpvar : p'.variants = g.variants := by
          rw [hpp]
          show op.set.variants = g.variants
          exact hvar
        have hold : rowsFor p'.productID (allRows pcs) = [] := by
          by_cases hr : rowsFor p'.productID (allRows pcs) = []
          · exact hr
          · have := hpresI p'.productID hr
            rw [hfp'] at this
            cases this
        rw [hpvar, hvsf, hrows_split, hold, List.nil_append]
  · -- every keyed product exists
    intro k hk
    rw [hprod, hfind k]
    rw [hrows_split] at hk
    by_cases hrc : rowsFor k (chunkRows c) = []
    · have hrp : rowsFor k (allRows pcs) ≠ [] := by
        intro h0
        rw [h0, hrc] at hk
        exact hk rfl
      have hsome := hpresI k hrp
      obtain ⟨p, hps⟩ := Option.isSome_iff_exists.mp hsome
      rw [hps]
      cases (chunkOps st c).find? (fun op => op.filterProductID = k) <;> rfl
    · have hany := (groupChunk_any c st.ctr k).mpr hrc
      rw [any_iff_find?_isSome] at hany
      obtain ⟨g, hgs⟩ := Option.isSome_iff_exists.mp hany
      rcases forall2_find hfa k with ⟨hg1, _⟩ | ⟨g', op, _, hg2, _⟩
      · rw [hg1] at hgs
        cases hgs
      · have hg2' : (chunkOps st c).find? (fun op => op.filterProductID = k)
            = some op := hg2
        rw [hg2']
        cases findProduct st.store.products k <;> rfl
  · -- chunk representatives have their reference entities
    intro c' hc' k r hrep'
    rcases List.mem_append.mp hc' with hc'old | hc'new
    · obtain ⟨h1, h2⟩ := hrepI c' hc'old k r hrep'
      constructor
      · rw [hveq]
        exact vendorNamed_append _ _ _ h1
      · rw [hmeq]
        exact manuNamed_append _ _ _ h2
    · rw [List.mem_singleton] at hc'new
      subst hc'new
      have hne := head?_some_ne_nil hrep'
      have hany := (groupChunk_any c' st.ctr k).mpr hne
      obtain ⟨g, hgmem, hgk⟩ := List.any_eq_true.mp hany
      rw [decide_eq_true_eq] at hgk
      have hgrow : g.row = r := by
        have h0 := groupChunk_rep c' st.ctr g hgmem
        rw [hgk, hrep'] at h0
        exact (Option.some.inj h0).symm
      obtain ⟨op, _, hspec⟩ := forall2_mem_left hfa g hgmem
      constructor
      · rw [(processChunk_refs st c').1, ← hgrow]
        exact hspec.2.2.1
      · rw [(processChunk_refs st c').2, ← hgrow]
        exact hspec.2.2.2.1

/-! ## The second run mirrors the first -/

/-- Overwrite the owned scalar fields of `p` with those of `q`, keeping
everything else (variants, document id, creation metadata) from `p`. -/
def mirrorOwned (q p : Product) : Product :=
  { p with
      name := q.name,
      description := q.description,
      vendorId := q.vendorId,
      manufacturerId := q.manufacturerId,
      availabilityText := q.availabilityText,
      images := q.images }

/-- The state of a replayed product relative to the first run's progress:
once the first run has the product, the replayed copy carries the first
run's owned fields; otherwise it is untouched. -/
def mirrorBy (sps : List Product) (p : Product) : Product :=
  match findProduct sps p.productID with
  | some q => mirrorOwned q p
  | none => p

theorem mirrorOwned_self (p : Product) : mirrorOwned p p = p := rfl

theorem mirrorOwned_productID (q p : Product) :
    (mirrorOwned q p).productID = p.productID := rfl

theorem mirrorOwned_variants (q p : Product) :
    (mirrorOwned q p).variants = p.variants := rfl

theorem mirrorBy_productID (sps : List Product) (p : Product) :
    (mirrorBy sps p).productID = p.productID := by
  rw [mirrorBy]
  cases findProduct sps p.productID <;> rfl

theorem mirrorBy_variants (sps : List Product) (p : Product) :
    (mirrorBy sps p).variants = p.variants := by
  rw [mirrorBy]
  cases findProduct sps p.productID <;> rfl

/-- Updating all owned fields wipes out the mirroring: the result depends
only on `p`'s non-owned fields. -/
theorem ownedUpdate_mirrorBy (sps : List Product) (p : Product) (r : Row)
    (vid : Nat) (mid : String) (mv : List Variant) :
    ownedUpdate (mirrorBy sps p) r vid mid mv
      = { p with
            name := r.productName,
            description := jsOr r.productDescription "",
            vendorId := vid,
            manufacturerId := mid,
            availabilityText := jsOr r.availabilityText "available",
            images := parseImages r,
            variants := mv } := by
  rw [mirrorBy]
  cases findProduct sps p.productID <;> rfl

/-- `applySet` of the merge payload built over the same document. -/
theorem applySet_toUpdateSet_ownedUpdate (q : Product) (r : Row) (vid : Nat)
    (mid : String) (mv : List Variant) :
    applySet q (toUpdateSet (ownedUpdate q r vid mid mv))
      = ownedUpdate q r vid mid mv := rfl

/-- The mirror of a product whose owned fields carry given values. -/
theorem mirrorOwned_of_fields {q : Product} (p : Product) {r : Row} {vid : Nat}
    {mid : String}
    (hn : q.name = r.productName)
    (hd : q.description = jsOr r.productDescription "")
    (hv : q.vendorId = vid)
    (hm : q.manufacturerId = mid)
    (ha : q.availabilityText = jsOr r.availabilityText "available")
    (hi : q.images = parseImages r) :
    mirrorOwned q p
      = { p with
            name := r.productName,
            description := jsOr r.productDescription "",
            vendorId := vid,
            manufacturerId := mid,
            availabilityText := jsOr r.availabilityText "available",
            images := parseImages r } := by
  rw [mirrorOwned, hn, hd, hv, hm, ha, hi]

/-- An owned-field record update that also re-asserts the variants is the
plain owned-field update when the variants are unchanged. -/
theorem record_variants_eta (p : Product) (n d : String) (vid : Nat)
    (mid : String) (a : String) (im : List Image) :
    ({ p with
          name := n,
          description := d,
          vendorId := vid,
          manufacturerId := mid,
          availabilityText := a,
          images := im,
          variants := p.variants } : Product)
      = { p with
            name := n,
            description := d,
            vendorId := vid,
            manufacturerId := mid,
            availabilityText := a,
            images := im } := rfl

theorem runChunks_append (st : PipeState) (x y : List (List Row)) :
    runChunks st (x ++ y) = runChunks (runChunks st x) y := by
  rw [runChunks, runChunks, runChunks, List.foldl_append]

theorem runChunks_cons (st : PipeState) (c : List Row)
    (cs : List (List Row)) :
    runChunks st (c :: cs) = runChunks (processChunk st c) cs := rfl

/-- Restricting the global sku-distinctness hypothesis to a prefix of the
chunk list. -/
theorem nodupH_prefix {cs done rest : List (List Row)}
    (hcs : cs = done ++ rest)
    (hH : ∀ k, ((rowsFor k (allRows cs)).map skuOfRow).Nodup) :
    ∀ k, ((rowsFor k (allRows done)).map skuOfRow).Nodup := by
  intro k
  have h0 := hH k
  rw [hcs, allRows_append, rowsFor_append, List.map_append] at h0
  exact (List.nodup_append.mp h0).1

/-- The run invariant propagates along the remaining chunks, and the
reference collections only ever grow. -/
theorem runChunks_inv {cs : List (List Row)}
    (hH : ∀ k, ((rowsFor k (allRows cs)).map skuOfRow).Nodup) :
    ∀ (rest done : List (List Row)) (st : PipeState),
      cs = done ++ rest → runInv done st →
      runInv cs (runChunks st rest)
      ∧ (∃ l, (runChunks st rest).store.vendors = st.store.vendors ++ l)
      ∧ (∃ l, (runChunks st rest).store.manufacturers
          = st.store.manufacturers ++ l) := by
  intro rest
  induction rest with
  | nil =>
    intro done st hcs hinv
    rw [List.append_nil] at hcs
    subst hcs
    exact ⟨hinv, ⟨[], (List.append_nil _).symm⟩,
      ⟨[], (List.append_nil _).symm⟩⟩
  | cons c rest ih =>
    intro done st hcs hinv
    have hcs1 : cs = (done ++ [c]) ++ rest := by
      rw [hcs, List.append_assoc]
      rfl
    have hH1 := nodupH_prefix hcs1 hH
    obtain ⟨hinv1, ⟨lv1, hlv1⟩, ⟨lm1, hlm1⟩⟩ := processChunk_runInv hH1 hinv
    obtain ⟨hfin, ⟨lv2, hlv2⟩, ⟨lm2, hlm2⟩⟩ :=
      ih (done ++ [c]) (processChunk st c) hcs1 hinv1
    rw [runChunks_cons]
    refine ⟨hfin, ⟨lv1 ++ lv2, ?_⟩, ⟨lm1 ++ lm2, ?_⟩⟩
    · rw [hlv2, hlv1, List.append_assoc]
    · rw [hlm2, hlm1, List.append_assoc]

theorem forall2_mem_right {R : Group → UpdateOp → Prop} :
    ∀ {gs : List Group} {ops : List UpdateOp},
      List.Forall₂ R gs ops → ∀ op ∈ ops, ∃ g ∈ gs, R g op := by
  intro gs ops h
  induction h with
  | nil => intro op hop; cases hop
  | cons hR _ ih =>
    intro op hop
    rcases List.mem_cons.mp hop with rfl | hop2
    · exact ⟨_, List.mem_cons_self _ _, hR⟩
    · obtain ⟨g, hg, hrg⟩ := ih op hop2
      exact ⟨g, List.mem_cons_of_mem _ hg, hrg⟩

/-- No group carries a key exactly when the chunk has no valid row for it. -/
theorem groupChunk_find_none (c : List Row) (ctr : Nat) (k : String) :
    ((groupChunk c ctr).1.find? (fun g => g.key = k) = none)
      ↔ rowsFor k (chunkRows c) = [] := by
  constructor
  · intro h
    by_cases hr : rowsFor k (chunkRows c) = []
    · exact hr
    · exfalso
      have hany := (groupChunk_any c ctr k).mpr hr
      have hs := (any_iff_find?_isSome _ _).mp hany
      rw [h] at hs
      simp at hs
  · intro hr
    cases hf : (groupChunk c ctr).1.find? (fun g => g.key = k) with
    | none => rfl
    | some g =>
      exfalso
      have hany := (any_iff_find?_isSome (fun g : Group => decide (g.key = k))
        (groupChunk c ctr).1).mpr (by rw [hf]; rfl)
      exact (groupChunk_any c ctr k).mp hany hr

/-- The group found under a key: its representative row and its variants'
data. -/
theorem groupChunk_find_some {c : List Row} {ctr : Nat} {k : String}
    {g : Group}
    (h : (groupChunk c ctr).1.find? (fun g => g.key = k) = some g) :
    g.key = k ∧ (rowsFor k (chunkRows c)).head? = some g.row
    ∧ g.variants.map varFields = (rowsFor k (chunkRows c)).map rowFields := by
  have hmem := List.mem_of_find?_eq_some h
  have hk : g.key = k := by
    have h2 := List.find?_some h
    simpa using h2
  refine ⟨hk, ?_, ?_⟩
  · have h3 := groupChunk_rep c ctr g hmem
    rw [hk] at h3
    exact h3
  · have h3 := groupChunk_fields c ctr g hmem
    rw [hk] at h3
    exact h3

/-- Splitting the valid rows of a run at one chunk. -/
theorem allRows_decomp (done rest : List (List Row)) (c : List Row) :
    allRows (done ++ c :: rest)
      = allRows done ++ (chunkRows c ++ allRows rest) := by
  have h1 : done ++ c :: rest = (done ++ [c]) ++ rest := by
    rw [List.append_assoc]
    rfl
  rw [h1, allRows_append, allRows_snoc, List.append_assoc]

theorem ownedUpdate_fields (p : Product) (r : Row) (vid : Nat) (mid : String)
    (mv : List Variant) :
    (ownedUpdate p r vid mid mv).name = r.productName
    ∧ (ownedUpdate p r vid mid mv).description = jsOr r.productDescription ""
    ∧ (ownedUpdate p r vid mid mv).vendorId = vid
    ∧ (ownedUpdate p r vid mid mv).manufacturerId = mid
    ∧ (ownedUpdate p r vid mid mv).availabilityText
        = jsOr r.availabilityText "available"
    ∧ (ownedUpdate p r vid mid mv).images = parseImages r :=
  ⟨rfl, rfl, rfl, rfl, rfl, rfl⟩

theorem insertOfOp_fields (op : UpdateOp) :
    (insertOfOp op).name = op.set.name
    ∧ (insertOfOp op).description = op.set.description
    ∧ (insertOfOp op).vendorId = op.set.vendorId
    ∧ (insertOfOp op).manufacturerId = op.set.manufacturerId
    ∧ (insertOfOp op).availabilityText = op.set.availabilityText
    ∧ (insertOfOp op).images = op.set.images :=
  ⟨rfl, rfl, rfl, rfl, rfl, rfl⟩

theorem storeEq_of_parts {s t : Store} (hv : s.vendors = t.vendors)
    (hm : s.manufacturers = t.manufacturers)
    (hp : s.products = t.products) : s = t := by
  cases s
  cases t
  cases hv
  cases hm
  cases hp
  rfl

/-- The replay relation: after replaying a prefix of the chunks, the second
run's reference collections already equal the first run's final ones, and its
products are the first run's final products with the owned fields rolled back
to the first run's state at that prefix. -/
def simRel (T sg tau : PipeState) : Prop :=
  tau.store.vendors = T.store.vendors
  ∧ tau.store.manufacturers = T.store.manufacturers
  ∧ tau.store.products = T.store.products.map (mirrorBy sg.store.products)

/-- One chunk of the replay: the second run's chunk is a pure owned-field
refresh of the first run's final documents. -/
theorem simRel_step {cs done rest : List (List Row)} {c : List Row}
    {sg tau : PipeState}
    (hH : ∀ k, ((rowsFor k (allRows cs)).map skuOfRow).Nodup)
    (hcs : cs = done ++ c :: rest)
    (hsg : sg = runChunks initState done)
    (hsginv : runInv done sg)
    (hrel : simRel (runChunks initState cs) sg tau) :
    simRel (runChunks initState cs) (processChunk sg c) (processChunk tau c) := by
  obtain ⟨hrelv, hrelm, hrelp⟩ := hrel
  obtain ⟨hTvn, hTmn, hTpn, hTfields, hTpres, hTrep⟩ :=
    (runChunks_inv hH cs [] initState rfl runInv_init).1
  have hcmem : c ∈ cs := by
    rw [hcs]
    exact List.mem_append_right _ (List.mem_cons_self _ _)
  have hcs1 : cs = (done ++ [c]) ++ rest := by
    rw [hcs, List.append_assoc]
    rfl
  have hH1 := nodupH_prefix hcs1 hH
  obtain ⟨hsginv1, -, -⟩ := processChunk_runInv hH1 hsginv
  have hsg1 : processChunk sg c = runChunks initState (done ++ [c]) := by
    rw [runChunks_append, ← hsg]
    rfl
  have hTrun : runChunks (processChunk sg c) rest = runChunks initState cs := by
    rw [hcs1, runChunks_append, hsg1]
  obtain ⟨-, ⟨lv, hlv⟩, -⟩ :=
    runChunks_inv hH rest (done ++ [c]) (processChunk sg c) hcs1 hsginv1
  rw [hTrun] at hlv
  -- the replayed chunk creates no reference entities
  have hgv : ∀ g ∈ (groupChunk c tau.ctr).1,
      vendorNamed tau.store.vendors g.row.siteSource = true := by
    intro g hg
    rw [hrelv]
    exact (hTrep c hcmem g.key g.row (groupChunk_rep c tau.ctr g hg)).1
  have hgm : ∀ g ∈ (groupChunk c tau.ctr).1,
      manuNamed tau.store.manufacturers g.row.manufacturerID = true := by
    intro g hg
    rw [hrelm]
    exact (hTrep c hcmem g.key g.row (groupChunk_rep c tau.ctr g hg)).2
  have hnc := buildOps_no_create (groupChunk c tau.ctr).1
    { tau with ctr := (groupChunk c tau.ctr).2 } tau.store.products hgv hgm
  have htau'v : (processChunk tau c).store.vendors
      = (runChunks initState cs).store.vendors := by
    rw [(processChunk_refs tau c).1, hnc.1]
    exact hrelv
  have htau'm : (processChunk tau c).store.manufacturers
      = (runChunks initState cs).store.manufacturers := by
    rw [(processChunk_refs tau c).2, hnc.2]
    exact hrelm
  -- the emitted-instruction specifications, in final-reference form
  obtain ⟨-, -, -, -, hfaT⟩ := buildOps_spec (groupChunk c tau.ctr).1
    { tau with ctr := (groupChunk c tau.ctr).2 } tau.store.products
  have hfaT2 : List.Forall₂ (OpSpec tau.store.products
      (buildOps { tau with ctr := (groupChunk c tau.ctr).2 } tau.store.products
        (groupChunk c tau.ctr).1).2.store.vendors
      (buildOps { tau with ctr := (groupChunk c tau.ctr).2 } tau.store.products
        (groupChunk c tau.ctr).1).2.store.manufacturers)
      (groupChunk c tau.ctr).1 (chunkOps tau c) := hfaT
  have hVtau : (buildOps { tau with ctr := (groupChunk c tau.ctr).2 }
      tau.store.products (groupChunk c tau.ctr).1).2.store.vendors
      = (runChunks initState cs).store.vendors := by
    rw [hnc.1]
    exact hrelv
  have hMtau : (buildOps { tau with ctr := (groupChunk c tau.ctr).2 }
      tau.store.products (groupChunk c tau.ctr).1).2.store.manufacturers
      = (runChunks initState cs).store.manufacturers := by
    rw [hnc.2]
    exact hrelm
  rw [hVtau, hMtau] at hfaT2
  obtain ⟨-, -, -, -, hfaS⟩ := buildOps_spec (groupChunk c sg.ctr).1
    { sg with ctr := (groupChunk c sg.ctr).2 } sg.store.products
  have hfaS2 : List.Forall₂ (OpSpec sg.store.products
      (buildOps { sg with ctr := (groupChunk c sg.ctr).2 } sg.store.products
        (groupChunk c sg.ctr).1).2.store.vendors
      (buildOps { sg with ctr := (groupChunk c sg.ctr).2 } sg.store.products
        (groupChunk c sg.ctr).1).2.store.manufacturers)
      (groupChunk c sg.ctr).1 (chunkOps sg c) := hfaS
  rw [← (processChunk_refs sg c).1, ← (processChunk_refs sg c).2] at hfaS2
  -- instruction-key facts on both sides
  have hkT : ((chunkOps tau c).map (fun op => op.filterProductID)).Nodup := by
    show ((buildOps { tau with ctr := (groupChunk c tau.ctr).2 }
      tau.store.products (groupChunk c tau.ctr).1).1.map
        (fun op => op.filterProductID)).Nodup
    rw [forall2_map_key hfaT]
    exact groupChunk_keys_nodup c tau.ctr
  have hkS : ((chunkOps sg c).map (fun op => op.filterProductID)).Nodup := by
    show ((buildOps { sg with ctr := (groupChunk c sg.ctr).2 }
      sg.store.products (groupChunk c sg.ctr).1).1.map
        (fun op => op.filterProductID)).Nodup
    rw [forall2_map_key hfaS]
    exact groupChunk_keys_nodup c sg.ctr
  -- the replayed store has the same product keys as the first run's result
  have hkeysT : tau.store.products.map (fun p => p.productID)
      = (runChunks initState cs).store.products.map (fun p => p.productID) := by
    rw [hrelp, List.map_map]
    apply List.map_congr_left
    intro p _
    exact mirrorBy_productID sg.store.products p
  have htaupn : (tau.store.products.map (fun p => p.productID)).Nodup := by
    rw [hkeysT]
    exact hTpn
  -- every replayed instruction finds its document
  have hpresT : ∀ op ∈ chunkOps tau c,
      tau.store.products.any (fun p => p.productID = op.filterProductID)
        = true := by
    intro op hop
    obtain ⟨g, hg, hOS⟩ := forall2_mem_right hfaT2 op hop
    have hrows := (groupChunk_any c tau.ctr g.key).mp
      (List.any_eq_true.mpr ⟨g, hg, by simp⟩)
    have hrowsAll : rowsFor g.key (allRows cs) ≠ [] := by
      rw [hcs, allRows_decomp, rowsFor_append, rowsFor_append]
      intro hempty
      rcases List.append_eq_nil.mp hempty with ⟨-, h2⟩
      rcases List.append_eq_nil.mp h2 with ⟨h3, -⟩
      exact hrows h3
    have hanyT : (runChunks initState cs).store.products.any
        (fun p => p.productID = g.key) = true :=
      (any_iff_find?_isSome _ _).mpr (hTpres g.key hrowsAll)
    rw [hOS.1, any_key_of_map_eq hkeysT]
    exact hanyT
  have htau'p : (processChunk tau c).store.products
      = tau.store.products.map (fun p =>
          match (chunkOps tau c).find?
              (fun op => op.filterProductID = p.productID) with
          | some op => applySet p op.set
          | none => p) := by
    rw [processChunk_products]
    exact applyOps_all_update (chunkOps tau c) hkT
      (chunkOps_set_eq_filter tau c) tau.store.products htaupn hpresT
  have hsg'find : ∀ k, findProduct (processChunk sg c).store.products k =
      match findProduct sg.store.products k,
          (chunkOps sg c).find? (fun op => op.filterProductID = k) with
      | some p, some op => some (applySet p op.set)
      | some p, none => some p
      | none, some op => some (insertOfOp op)
      | none, none => none := by
    intro k
    rw [processChunk_products]
    exact applyOps_find (chunkOps sg c) hkS (chunkOps_set_eq_filter sg c)
      sg.store.products k
  refine ⟨htau'v, htau'm, ?_⟩
  rw [htau'p, hrelp, List.map_map]
  apply List.map_congr_left
  intro p hp
  show (match (chunkOps tau c).find?
      (fun op => op.filterProductID = (mirrorBy sg.store.products p).productID)
      with
    | some op => applySet (mirrorBy sg.store.products p) op.set
    | none => mirrorBy sg.store.products p)
    = mirrorBy (processChunk sg c).store.products p
  simp only [mirrorBy_productID]
  have hfTp : findProduct tau.store.products p.productID
      = some (mirrorBy sg.store.products p) := by
    rw [hrelp, findProduct_map (fun q => mirrorBy_productID sg.store.products q),
      findProduct_self_of_nodup hTpn hp]
    rfl
  cases hfop : (chunkOps tau c).find?
      (fun op => op.filterProductID = p.productID) with
  | none =>
    have hgTn : (groupChunk c tau.ctr).1.find? (fun g => g.key = p.productID)
        = none := by
      rcases forall2_find hfaT2 p.productID with ⟨h1, -⟩ | ⟨g, op, -, h2, -⟩
      · exact h1
      · rw [hfop] at h2
        exact Option.noConfusion h2
    have hrows0 : rowsFor p.productID (chunkRows c) = [] :=
      (groupChunk_find_none c tau.ctr p.productID).mp hgTn
    have hgSn : (groupChunk c sg.ctr).1.find? (fun g => g.key = p.productID)
        = none :=
      (groupChunk_find_none c sg.ctr p.productID).mpr hrows0
    have hoSn : (chunkOps sg c).find?
        (fun op => op.filterProductID = p.productID) = none := by
      rcases forall2_find hfaS2 p.productID with ⟨-, h2⟩ | ⟨g, op, h1, -, -⟩
      · exact h2
      · rw [hgSn] at h1
        exact Option.noConfusion h1
    have hfind2 : findProduct (processChunk sg c).store.products p.productID
        = findProduct sg.store.products p.productID := by
      rw [hsg'find p.productID, hoSn]
      cases findProduct sg.store.products p.productID <;> rfl
    show mirrorBy sg.store.products p
      = mirrorBy (processChunk sg c).store.products p
    rw [mirrorBy, mirrorBy, hfind2]
  | some opT =>
    obtain ⟨gT, hg1, hOST⟩ : ∃ gT,
        (groupChunk c tau.ctr).1.find? (fun g => g.key = p.productID) = some gT
        ∧ OpSpec tau.store.products (runChunks initState cs).store.vendors
            (runChunks initState cs).store.manufacturers gT opT := by
      rcases forall2_find hfaT2 p.productID with ⟨-, h2⟩ | ⟨g, op, h1, h2, h3⟩
      · rw [hfop] at h2
        exact Option.noConfusion h2
      · rw [hfop] at h2
        obtain rfl := Option.some.inj h2
        exact ⟨g, h1, h3⟩
    obtain ⟨hgk, hhead, hfieldsT⟩ := groupChunk_find_some hg1
    have hrowsne : rowsFor p.productID (chunkRows c) ≠ [] :=
      head?_some_ne_nil hhead
    obtain ⟨gS, opS, hg1S, h2S, hOSS⟩ : ∃ gS opS,
        (groupChunk c sg.ctr).1.find? (fun g => g.key = p.productID) = some gS
        ∧ (chunkOps sg c).find? (fun op => op.filterProductID = p.productID)
            = some opS
        ∧ OpSpec sg.store.products (processChunk sg c).store.vendors
            (processChunk sg c).store.manufacturers gS opS := by
      rcases forall2_find hfaS2 p.productID with ⟨h1, -⟩ | ⟨g, op, h1, h2, h3⟩
      · exact absurd ((groupChunk_find_none c sg.ctr p.productID).mp h1) hrowsne
      · exact ⟨g, op, h1, h2, h3⟩
    obtain ⟨hgkS, hheadS, hfieldsS⟩ := groupChunk_find_some hg1S
    have hrow : gT.row = gS.row := Option.some.inj (hhead.symm.trans hheadS)
    -- the replayed instruction is a merge into the mirrored document
    obtain ⟨-, -, -, -, hbrT⟩ := hOST
    rcases hbrT with ⟨q, hfq, -, hset⟩ | ⟨hfn, -⟩
    · have h5 : findProduct tau.store.products p.productID = some q := by
        have h6 : findProduct tau.store.products gT.key = some q := hfq
        rw [hgk] at h6
        exact h6
      rw [hfTp] at h5
      obtain rfl := Option.some.inj h5
      -- the merged variant list is exactly the first run's
      have hTf := hTfields p hp
      have hcov : ∀ v ∈ gT.variants, ∃ e ∈ p.variants,
          e.sku = v.sku ∧ isVariantUpdated e v = false := by
        intro v hv
        have h6 : varFields v ∈ gT.variants.map varFields :=
          List.mem_map.mpr ⟨v, hv, rfl⟩
        rw [hfieldsT] at h6
        have h7 : varFields v ∈ (rowsFor p.productID (allRows cs)).map rowFields := by
          rw [hcs, allRows_decomp, rowsFor_append, rowsFor_append,
            List.map_append, List.map_append]
          exact List.mem_append_right _ (List.mem_append_left _ h6)
        rw [← hTf] at h7
        obtain ⟨e, he, heq⟩ := List.mem_map.mp h7
        exact ⟨e, he, varFields_eq_sku heq, varFields_eq_not_updated heq⟩
      have hskup : (skus p.variants).Nodup := by
        rw [skus_eq_fields, hTf, ← rowSkus_eq_fields]
        exact hH p.productID
      have hskug : (skus gT.variants).Nodup := by
        rw [skus_eq_fields, hfieldsT, ← rowSkus_eq_fields]
        have h8 := hH p.productID
        rw [hcs, allRows_decomp, rowsFor_append, rowsFor_append,
          List.map_append, List.map_append] at h8
        exact (List.nodup_append.mp ((List.nodup_append.mp h8).2.1)).1
      have hmerge : mergeVariants (mirrorBy sg.store.products p).variants
          gT.variants = p.variants := by
        rw [mirrorBy_variants]
        exact mergeVariants_identity hskup hskug hcov
      show applySet (mirrorBy sg.store.products p) opT.set
        = mirrorBy (processChunk sg c).store.products p
      rw [hset, hmerge, applySet_toUpdateSet_ownedUpdate, ownedUpdate_mirrorBy,
        record_variants_eta]
      -- the first run's step on this key
      obtain ⟨-, -, hvnS, -, hbrS⟩ := hOSS
      have hvid : vidOf (runChunks initState cs).store.vendors
          gS.row.siteSource
          = vidOf (processChunk sg c).store.vendors gS.row.siteSource := by
        rw [hlv]
        exact vidOf_append hvnS lv
      rcases hbrS with ⟨qS, hfqS, -, hsetS⟩ | ⟨hfnS, -, hnS, hdS, hvidS, hmidS, havS, himS, -⟩
      · have hfq2 : findProduct sg.store.products p.productID = some qS := by
          have h6 : findProduct sg.store.products gS.key = some qS := hfqS
          rw [hgkS] at h6
          exact h6
        have h9 : findProduct (processChunk sg c).store.products p.productID
            = some (applySet qS opS.set) := by
          rw [hsg'find p.productID, hfq2, h2S]
        have h10 : mirrorBy (processChunk sg c).store.products p
            = mirrorOwned (applySet qS opS.set) p := by
          rw [mirrorBy, h9]
        rw [h10, hsetS, applySet_toUpdateSet_ownedUpdate,
          mirrorOwned_of_fields p (ownedUpdate_fields _ _ _ _ _).1
            (ownedUpdate_fields _ _ _ _ _).2.1
            (ownedUpdate_fields _ _ _ _ _).2.2.1
            (ownedUpdate_fields _ _ _ _ _).2.2.2.1
            (ownedUpdate_fields _ _ _ _ _).2.2.2.2.1
            (ownedUpdate_fields _ _ _ _ _).2.2.2.2.2,
          hrow, hvid]
      · have hfn2 : findProduct sg.store.products p.productID = none := by
          have h6 : findProduct sg.store.products gS.key = none := hfnS
          rw [hgkS] at h6
          exact h6
        have h9 : findProduct (processChunk sg c).store.products p.productID
            = some (insertOfOp opS) := by
          rw [hsg'find p.productID, hfn2, h2S]
        have h10 : mirrorBy (processChunk sg c).store.products p
            = mirrorOwned (insertOfOp opS) p := by
          rw [mirrorBy, h9]
        have hn3 : (insertOfOp opS).name = gS.row.productName := by
          rw [(insertOfOp_fields opS).1, hnS]
        have hd3 : (insertOfOp opS).description
            = jsOr gS.row.productDescription "" := by
          rw [(insertOfOp_fields opS).2.1, hdS]
        have hv3 : (insertOfOp opS).vendorId
            = vidOf (processChunk sg c).store.vendors gS.row.siteSource := by
          rw [(insertOfOp_fields opS).2.2.1, hvidS]
        have hm3 : (insertOfOp opS).manufacturerId = gS.row.manufacturerID := by
          rw [(insertOfOp_fields opS).2.2.2.1, hmidS]
        have ha3 : (insertOfOp opS).availabilityText
            = jsOr gS.row.availabilityText "available" := by
          rw [(insertOfOp_fields opS).2.2.2.2.1, havS]
        have hi3 : (insertOfOp opS).images = parseImages gS.row := by
          rw [(insertOfOp_fields opS).2.2.2.2.2, himS]
        rw [h10, mirrorOwned_of_fields p hn3 hd3 hv3 hm3 ha3 hi3, hrow, hvid]
    · exfalso
      have h6 : findProduct tau.store.products p.productID = none := by
        have h7 : findProduct tau.store.products gT.key = none := hfn
        rw [hgk] at h7
        exact h7
      rw [hfTp] at h6
      exact Option.noConfusion h6

/-- The replay relation is preserved along the remaining chunks. -/
theorem simRel_runChunks {cs : List (List Row)}
    (hH : ∀ k, ((rowsFor k (allRows cs)).map skuOfRow).Nodup) :
    ∀ (rest done : List (List Row)) (sg tau : PipeState),
      cs = done ++ rest →
      sg = runChunks initState done →
      runInv done sg →
      simRel (runChunks initState cs) sg tau →
      simRel (runChunks initState cs) (runChunks sg rest)
        (runChunks tau rest) := by
  intro rest
  induction rest with
  | nil =>
    intro done sg tau hcs hsg hinv hrel
    exact hrel
  | cons c rest ih =>
    intro done sg tau hcs hsg hinv hrel
    have hstep := simRel_step hH hcs hsg hinv hrel
    have hcs1 : cs = (done ++ [c]) ++ rest := by
      rw [hcs, List.append_assoc]
      rfl
    have hH1 := nodupH_prefix hcs1 hH
    obtain ⟨hinv1, -, -⟩ := processChunk_runInv hH1 hinv
    have hsg1 : processChunk sg c = runChunks initState (done ++ [c]) := by
      rw [runChunks_append, ← hsg]
      rfl
    rw [runChunks_cons, runChunks_cons]
    exact ih (done ++ [c]) (processChunk sg c) (processChunk tau c) hcs1 hsg1
      hinv1 hstep

/-- A second run over the same chunks, starting from the first run's final
store, restores exactly that store. -/
theorem second_run_fixed {cs : List (List Row)} {tau0 : PipeState}
    (hH : ∀ k, ((rowsFor k (allRows cs)).map skuOfRow).Nodup)
    (hs : tau0.store = (runChunks initState cs).store) :
    (runChunks tau0 cs).store = (runChunks initState cs).store := by
  have hrel0 : simRel (runChunks initState cs) initState tau0 := by
    refine ⟨?_, ?_, ?_⟩
    · rw [hs]
    · rw [hs]
    · rw [hs]
      symm
      apply (List.map_congr_left ?_).trans (List.map_id _)
      intro p _
      rfl
  obtain ⟨hv, hm, hp⟩ :=
    simRel_runChunks hH cs [] initState tau0 rfl rfl runInv_init hrel0
  apply storeEq_of_parts hv hm
  rw [hp]
  have hTpn := ((runChunks_inv hH cs [] initState rfl runInv_init).1).2.2.1
  apply (List.map_congr_left ?_).trans (List.map_id _)
  intro p hp2
  show mirrorBy (runChunks initState cs).store.products p = p
  rw [mirrorBy, findProduct_self_of_nodup hTpn hp2]
  exact mirrorOwned_self p

theorem nodup_map_filter_singleton {α β : Type} (f : α → β) (p : α → Bool)
    (a : α) : ((List.filter p [a]).map f).Nodup := by
  rw [List.filter_cons]
  by_cases h : p a = true
  · rw [if_pos h]
    simp
  · rw [if_neg h]
    simp

/-- C3 (amended): provided the rows sharing a productID yield pairwise
distinct skus across the file, running the pipeline a second time over the
same chunks against the first run's resulting store leaves the persistent
store unchanged, and the final store holds no duplicate vendors (by name),
manufacturers (by manufacturerId) or products (by productID), and no
duplicate variant skus within any product. The second run may start from any
in-memory service state (counter included) whose store is the first run's. -/
theorem claim_C3_second_run_identity (cs : List (List Row)) (tau0 : PipeState)
    (hH : ∀ k, ((rowsFor k (allRows cs)).map skuOfRow).Nodup)
    (hs : tau0.store = (runChunks initState cs).store) :
    (runChunks tau0 cs).store = (runChunks initState cs).store
    ∧ ((runChunks tau0 cs).store.vendors.map (fun v => v.name)).Nodup
    ∧ ((runChunks tau0 cs).store.manufacturers.map
        (fun m => m.manufacturerId)).Nodup
    ∧ ((runChunks tau0 cs).store.products.map (fun p => p.productID)).Nodup
    ∧ ∀ p ∈ (runChunks tau0 cs).store.products, (skus p.variants).Nodup := by
  have heq := second_run_fixed hH hs
  obtain ⟨hTv, hTm, hTp, hTfields, -, -⟩ :=
    (runChunks_inv hH cs [] initState rfl runInv_init).1
  refine ⟨heq, ?_, ?_, ?_, ?_⟩
  · rw [heq]
    exact hTv
  · rw [heq]
    exact hTm
  · rw [heq]
    exact hTp
  · intro p hp
    rw [heq] at hp
    rw [skus_eq_fields, hTfields p hp, ← rowSkus_eq_fields]
    exact hH p.productID

/-- Witness for C3 at a one-row file: the sku-distinctness hypothesis holds
and the second run leaves the store exactly as the first run left it. -/
theorem claim_C3_witness :
    (runChunks (runChunks initState [[rowGauze]]) [[rowGauze]]).store
      = (runChunks initState [[rowGauze]]).store :=
  (claim_C3_second_run_identity [[rowGauze]] (runChunks initState [[rowGauze]])
    (fun k => by
      rw [show allRows [[rowGauze]] = [rowGauze] from by decide, rowsFor]
      exact nodup_map_filter_singleton _ _ _)
    rfl).1

end MedImport
